import Mathlib

/-!
Verification of the `Grid` sampling-grid geometry of `deepali.core.grid`.

The embedding models the Python class `Grid` (file `src/deepali/core/grid.py`)
over exact rationals: a tensor of shape `(D,)` becomes `Fin D → ℚ`, a `D × D`
matrix becomes `Matrix (Fin D) (Fin D) ℚ`, and a function that raises an
exception is modelled as returning `Option` with `none` for the raising path.
Helper routines of the sibling modules `core.linalg` (`homogeneous_matrix`,
`hmm`, `homogeneous_transform`) and `core.math` (`round_decimals`) are not part
of the provided source and are modelled from the spec where indicated.

A homogeneous transform of shape `(D, D + 1)` (linear part plus translation
column) is modelled as a `D × D` matrix together with `offset = some t`; a
plain `(D, D)` matrix (the `vectors=True` result, or a result for which the
source omitted the translation column) has `offset = none`.
-/

-- Core marks the rational arithmetic operations irreducible; they are made
-- semireducible here so that concrete instances of the claims can be settled
-- by kernel evaluation.
attribute [local semireducible] Rat.sub Rat.add Rat.mul Rat.inv

/-- Enumeration of grid axes (class `Axes`). -/
inductive Axes where
  | GRID
  | CUBE
  | CUBE_CORNERS
  | WORLD
deriving DecidableEq, Repr

/-- The value of `Axes.from_align_corners`. -/
def Axes.from_align_corners (ac : Bool) : Axes :=
  if ac then Axes.CUBE_CORNERS else Axes.CUBE

/-- Oriented regularly spaced sampling grid: the stored attributes `_size`,
`_spacing`, `_center`, `_direction`, `_align_corners` of class `Grid`. -/
@[ext]
structure Grid (D : ℕ) where
  size : Fin D → ℚ
  spacing : Fin D → ℚ
  center : Fin D → ℚ
  direction : Matrix (Fin D) (Fin D) ℚ
  align_corners : Bool

variable {D : ℕ}

/-- `Grid._round_size`: `where(size == 0, 0, ceil(size))`, as an integer. -/
def roundSizeInt (q : ℚ) : ℤ :=
  if q = 0 then 0 else ⌈q⌉

/-- `Grid.size_tensor`: the rounded size as a floating tensor. -/
def Grid.size_tensor (g : Grid D) : Fin D → ℚ :=
  fun i => ((roundSizeInt (g.size i) : ℤ) : ℚ)

/-- `Grid.size()` entries as integers (`int(n)` over `size_tensor`). -/
def Grid.isize (g : Grid D) : Fin D → ℤ :=
  fun i => roundSizeInt (g.size i)

/-- `Grid.extent()`: `spacing * size_tensor`. -/
def Grid.extent (g : Grid D) : Fin D → ℚ :=
  fun i => g.spacing i * g.size_tensor i

/-- `Grid.cube_extent()`: `spacing * (size_tensor - 1)` when `align_corners`
else `spacing * size_tensor`. -/
def Grid.cube_extent (g : Grid D) : Fin D → ℚ :=
  fun i => g.spacing i * (g.size_tensor i - if g.align_corners then 1 else 0)

/-- `Grid.affine()`: `direction @ diag(spacing)`. -/
def Grid.affine (g : Grid D) : Matrix (Fin D) (Fin D) ℚ :=
  g.direction * Matrix.diagonal g.spacing

/-- `Grid.inverse_affine()`: `diag(1 / spacing) @ direction.T`. -/
def Grid.inverse_affine (g : Grid D) : Matrix (Fin D) (Fin D) ℚ :=
  Matrix.diagonal (fun i => 1 / g.spacing i) * g.direction.transpose

/-- The index offset of the grid center used by `Grid.origin()` and
`Grid.origin_()`: `where(size > 0, size - 1, size) / 2` over `size_tensor`. -/
def Grid.originOffset (g : Grid D) : Fin D → ℚ :=
  fun i => (if 0 < g.size_tensor i then g.size_tensor i - 1 else g.size_tensor i) / 2

/-- `Grid.origin()`: `center - affine @ offset`. -/
def Grid.origin (g : Grid D) : Fin D → ℚ :=
  g.center - g.affine.mulVec g.originOffset

/-- Tolerance test of `torch.allclose` with the default `rtol=1e-5`,
`atol=1e-8`, applied elementwise to `D`-vectors. -/
def allcloseV (a b : Fin D → ℚ) : Bool :=
  decide (∀ i, |a i - b i| ≤ 1 / 100000000 + 1 / 100000 * |b i|)

/-- Tolerance test of `torch.allclose` applied elementwise to matrices. -/
def allcloseM (a b : Matrix (Fin D) (Fin D) ℚ) : Bool :=
  decide (∀ i j, |a i j - b i j| ≤ 1 / 100000000 + 1 / 100000 * |b i j|)

/-- `Grid.__eq__`: compares `_size`, `_center`, `_spacing`, `_direction` with
`torch.allclose` and ignores `_align_corners`. -/
def gridEq (a b : Grid D) : Bool :=
  allcloseV a.size b.size && allcloseV a.center b.center &&
    allcloseV a.spacing b.spacing && allcloseM a.direction b.direction

/-- `Grid.__init__`: validation and attribute initialization. `size` is given
directly (the `shape` argument path is its reverse and not needed by the
claims); `center?`/`origin?` model the optional keyword arguments. `none`
models a raised `ValueError`. -/
def Grid.init (size : Fin D → ℚ) (center? origin? : Option (Fin D → ℚ))
    (spacing : Fin D → ℚ) (direction : Matrix (Fin D) (Fin D) ℚ)
    (ac : Bool) : Option (Grid D) :=
  if D = 0 then none    -- "'size' must be non-empty array"
  else
    -- self._size = torch.clamp(size.float(), min=0)
    let size' : Fin D → ℚ := fun i => max (size i) 0
    -- self.spacing_(...): "Grid spacing must be positive"
    if ¬ (∀ i, 0 < spacing i) then none
    -- self.direction_(...): "must be valid rotation matrix" (determinant check)
    else if ¬ (|(|direction.det|) - 1| ≤ 1 / 10000) then none
    else
      match origin?, center? with
      | none, none => some ⟨size', spacing, fun _ => 0, direction, ac⟩
      | none, some c => some ⟨size', spacing, c, direction, ac⟩
      | some o, none =>
          -- self.origin_(origin): center = origin + affine @ offset
          let g0 : Grid D := ⟨size', spacing, fun _ => 0, direction, ac⟩
          some ⟨size', spacing, o + g0.affine.mulVec g0.originOffset, direction, ac⟩
      | some o, some c =>
          let g1 : Grid D := ⟨size', spacing, c, direction, ac⟩
          if allcloseV o g1.origin then some g1 else none

/-- Result of `Grid.transform`: the linear `D × D` part together with an
optional translation column. `offset = some t` models a homogeneous matrix of
shape `(D, D + 1)`; `offset = none` models a plain `(D, D)` matrix. -/
structure Homo (D : ℕ) where
  linear : Matrix (Fin D) (Fin D) ℚ
  offset : Option (Fin D → ℚ)

instance : DecidableEq (Homo D) := fun a b =>
  decidable_of_iff (a.linear = b.linear ∧ a.offset = b.offset)
    (by cases a; cases b; simp)

/-- Modelled from the spec (`core.linalg.homogeneous_matrix`): attach a
translation column to a linear matrix, giving shape `(D, D + 1)`. -/
def homogeneous_matrix (m : Matrix (Fin D) (Fin D) ℚ) (off : Fin D → ℚ) : Homo D :=
  ⟨m, some off⟩

/-- Modelled from the spec (`core.linalg.hmm`): composition `A ∘ B` of two
homogeneous coordinate transformations. When an operand carries no
translation column the operands do not have the homogeneous shape the
composition needs (the tensor backend raises a shape error); this is modelled
by an absent translation column in the result. -/
def hmm (A B : Homo D) : Homo D :=
  ⟨A.linear * B.linear,
    match A.offset, B.offset with
    | some a, some b => some (A.linear.mulVec b + a)
    | _, _ => none⟩

/-- The `axes is Axes.GRID, to_axes is Axes.CUBE` branch of `Grid.transform`:
`diag(2 / size)` with translation `1 / size - 1`. -/
def Grid.gridToCube (g : Grid D) (vectors : Bool) : Homo D :=
  let n := g.size_tensor
  let m := Matrix.diagonal (fun i => 2 / n i)
  if vectors then ⟨m, none⟩ else homogeneous_matrix m (fun i => 1 / n i - 1)

/-- The `axes is Axes.GRID, to_axes is Axes.CUBE_CORNERS` branch of
`Grid.transform`: `diag(2 / (size - 1))` with translation `-1`. -/
def Grid.gridToCubeCorners (g : Grid D) (vectors : Bool) : Homo D :=
  let n := g.size_tensor
  let m := Matrix.diagonal (fun i => 2 / (n i - 1))
  if vectors then ⟨m, none⟩ else homogeneous_matrix m (fun _ => -1)

/-- The `axes is Axes.GRID, to_axes is Axes.WORLD` branch of `Grid.transform`:
the `affine` matrix with translation `origin`. -/
def Grid.gridToWorld (g : Grid D) (vectors : Bool) : Homo D :=
  if vectors then ⟨g.affine, none⟩ else homogeneous_matrix g.affine g.origin

/-- The `axes is Axes.CUBE, to_axes is Axes.GRID` branch of `Grid.transform`:
`diag(half_size)` with translation `half_size - 0.5`. -/
def Grid.cubeToGrid (g : Grid D) (vectors : Bool) : Homo D :=
  let half_size := fun i => (1 / 2 : ℚ) * g.size_tensor i
  let m := Matrix.diagonal half_size
  if vectors then ⟨m, none⟩ else homogeneous_matrix m (fun i => half_size i - 1 / 2)

/-- The `axes is Axes.CUBE_CORNERS, to_axes is Axes.GRID` branch of
`Grid.transform`: `diag(scales)` with translation `scales`,
`scales = 0.5 * (size - 1)`. -/
def Grid.cornersToGrid (g : Grid D) (vectors : Bool) : Homo D :=
  let scales := fun i => (1 / 2 : ℚ) * (g.size_tensor i - 1)
  let m := Matrix.diagonal scales
  if vectors then ⟨m, none⟩ else homogeneous_matrix m scales

/-- The `axes is Axes.WORLD, to_axes is Axes.GRID` branch of `Grid.transform`.
The source computes `hmm(matrix, -origin)`, composing the linear
`inverse_affine` with a pure translation by `-origin`, which yields the
translation column `inverse_affine @ (-origin)`. -/
def Grid.worldToGrid (g : Grid D) (vectors : Bool) : Homo D :=
  let m := g.inverse_affine
  if vectors then ⟨m, none⟩ else ⟨m, some (m.mulVec (-g.origin))⟩

/-- The identity branch (`axes is to_axes`) of `Grid.transform`: identity
matrix, with a zero translation column appended unless `vectors`. -/
def idTransform (D : ℕ) (vectors : Bool) : Homo D :=
  if vectors then ⟨1, none⟩ else ⟨1, some 0⟩

/-- `Grid.transform(axes, to_axes, vectors)` for a single grid (`to_grid` is
`None` or equal to `self`): the four-space transform algebra. Each arm mirrors
the corresponding branch of the source. Where the source recursively calls
`self.transform` on a direct pair (the composite branches through the interim
`Axes.GRID`), the corresponding single-leg definition above is referenced, so
the definition is non-recursive. -/
def Grid.transform (g : Grid D) (axes to_axes : Axes) (vectors : Bool) : Homo D :=
  match axes, to_axes with
  | Axes.GRID, Axes.GRID => idTransform D vectors
  | Axes.CUBE, Axes.CUBE => idTransform D vectors
  | Axes.CUBE_CORNERS, Axes.CUBE_CORNERS => idTransform D vectors
  | Axes.WORLD, Axes.WORLD => idTransform D vectors
  | Axes.GRID, Axes.CUBE => g.gridToCube vectors
  | Axes.GRID, Axes.CUBE_CORNERS => g.gridToCubeCorners vectors
  | Axes.GRID, Axes.WORLD => g.gridToWorld vectors
  | Axes.CUBE, Axes.CUBE_CORNERS =>
      -- the source returns the diagonal matrix without a homogeneous wrap,
      -- also when vectors=False
      let n := g.size_tensor
      ⟨Matrix.diagonal (fun i => n i / (n i - 1)), none⟩
  | Axes.CUBE, Axes.GRID => g.cubeToGrid vectors
  | Axes.CUBE, Axes.WORLD =>
      let cube_to_grid := g.cubeToGrid vectors
      let grid_to_world := g.gridToWorld vectors
      if vectors then ⟨grid_to_world.linear * cube_to_grid.linear, none⟩
      else hmm grid_to_world cube_to_grid
  | Axes.CUBE_CORNERS, Axes.CUBE =>
      -- the source returns the diagonal matrix without a homogeneous wrap,
      -- also when vectors=False
      let n := g.size_tensor
      ⟨Matrix.diagonal (fun i => (n i - 1) / n i), none⟩
  | Axes.CUBE_CORNERS, Axes.GRID => g.cornersToGrid vectors
  | Axes.CUBE_CORNERS, Axes.WORLD =>
      let cube_to_grid := g.cornersToGrid vectors
      let grid_to_world := g.gridToWorld vectors
      if vectors then ⟨grid_to_world.linear * cube_to_grid.linear, none⟩
      else hmm grid_to_world cube_to_grid
  | Axes.WORLD, Axes.CUBE =>
      let world_to_grid := g.worldToGrid vectors
      let grid_to_cube := g.gridToCube vectors
      if vectors then ⟨grid_to_cube.linear * world_to_grid.linear, none⟩
      else hmm grid_to_cube world_to_grid
  | Axes.WORLD, Axes.CUBE_CORNERS =>
      let world_to_grid := g.worldToGrid vectors
      let grid_to_cube := g.gridToCubeCorners vectors
      if vectors then ⟨grid_to_cube.linear * world_to_grid.linear, none⟩
      else hmm grid_to_cube world_to_grid
  | Axes.WORLD, Axes.GRID => g.worldToGrid vectors

/-- The point-transform (`vectors=False`) single-leg map from `Axes.GRID` to
the given space (identity for `GRID` itself): the canonical factor through
which `Grid.transform` routes. -/
def fromGridPt (g : Grid D) : Axes → Homo D
  | Axes.GRID => idTransform D false
  | Axes.CUBE => g.gridToCube false
  | Axes.CUBE_CORNERS => g.gridToCubeCorners false
  | Axes.WORLD => g.gridToWorld false

/-- The point-transform single-leg map from the given space to `Axes.GRID`. -/
def toGridPt (g : Grid D) : Axes → Homo D
  | Axes.GRID => idTransform D false
  | Axes.CUBE => g.cubeToGrid false
  | Axes.CUBE_CORNERS => g.cornersToGrid false
  | Axes.WORLD => g.worldToGrid false

/-- The linear (`vectors=True`) single-leg map from `Axes.GRID` to the given
space. -/
def fromGridV (g : Grid D) : Axes → Matrix (Fin D) (Fin D) ℚ
  | Axes.GRID => 1
  | Axes.CUBE => (g.gridToCube true).linear
  | Axes.CUBE_CORNERS => (g.gridToCubeCorners true).linear
  | Axes.WORLD => (g.gridToWorld true).linear

/-- The linear single-leg map from the given space to `Axes.GRID`. -/
def toGridV (g : Grid D) : Axes → Matrix (Fin D) (Fin D) ℚ
  | Axes.GRID => 1
  | Axes.CUBE => (g.cubeToGrid true).linear
  | Axes.CUBE_CORNERS => (g.cornersToGrid true).linear
  | Axes.WORLD => (g.worldToGrid true).linear

/-- Modelled from the spec (`core.math.round_decimals`): round to `k` digits
right of the decimal point. The tie-breaking rule of the backend is
immaterial for the claims (all rounded values are exact). -/
def round_decimals (k : ℤ) (q : ℚ) : ℚ :=
  ((round (q * (10 : ℚ) ^ k) : ℤ) : ℚ) / (10 : ℚ) ^ k

/-- `Grid.apply_transform(input, axes, to_axes, vectors, decimals)` for a
single grid. The matrix application is modelled from the spec
(`core.linalg.homogeneous_transform`): linear part times the point plus the
translation column (absent column contributes nothing). `decimals = none`
models Python `None`; `some (-1)` is the default sentinel. -/
def Grid.apply_transform (g : Grid D) (input : Fin D → ℚ) (axes to_axes : Axes)
    (vectors : Bool) (decimals : Option ℤ) : Fin D → ℚ :=
  let result : Fin D → ℚ :=
    if axes ≠ to_axes then
      let matrix := g.transform axes to_axes vectors
      matrix.linear.mulVec input + matrix.offset.getD 0
    else input
  let d : Option ℤ :=
    if decimals = some (-1) then
      match to_axes with
      | Axes.CUBE => some 12
      | Axes.CUBE_CORNERS => some 12
      | Axes.GRID => some 6
      | Axes.WORLD => decimals
    else decimals
  match d with
  | some k => if 0 ≤ k then fun i => round_decimals k (result i) else result
  | none => result

/-- `Grid.transform_points`. -/
def Grid.transform_points (g : Grid D) (points : Fin D → ℚ) (axes to_axes : Axes)
    (decimals : Option ℤ) : Fin D → ℚ :=
  g.apply_transform points axes to_axes false decimals

/-- `Grid.index_to_world(indices, decimals=-1)`. -/
def Grid.index_to_world (g : Grid D) (indices : Fin D → ℚ) : Fin D → ℚ :=
  g.transform_points indices Axes.GRID Axes.WORLD (some (-1))

/-- `Grid.index_to_cube(indices, decimals=-1, align_corners=None)`. -/
def Grid.index_to_cube (g : Grid D) (indices : Fin D → ℚ)
    (align_corners? : Option Bool) : Fin D → ℚ :=
  let ac := align_corners?.getD g.align_corners
  g.transform_points indices Axes.GRID (Axes.from_align_corners ac) (some (-1))

/-- `Grid._resize(size, align_corners)`: the size-mutation primitive. The
`assert` statements of the source (preservation of origin and extent,
respectively) are exactly the invariants proved below and are therefore not
part of the returned value. -/
def Grid._resize (g : Grid D) (size : Fin D → ℚ) (align_corners? : Option Bool) : Grid D :=
  let ac := align_corners?.getD g.align_corners
  if size = g.size then g
  else
    let rounded : Fin D → ℚ := fun i => ((roundSizeInt (size i) : ℤ) : ℚ)
    let spacing : Fin D → ℚ :=
      if ac then fun i => (g.extent i - g.spacing i) / (rounded i - 1)
      else fun i => g.extent i / rounded i
    { g with
        size := size,
        spacing := fun i => if 0 < g.size i then spacing i else g.spacing i }

/-- `Grid.resize(size)`: validates that the requested integer size is
non-negative ("'size' must be all non-negative numbers"), then delegates to
`Grid._resize`. -/
def Grid.resize (g : Grid D) (size : Fin D → ℤ) : Option (Grid D) :=
  if ∀ i, 0 ≤ size i then some (g._resize (fun i => ((size i : ℤ) : ℚ)) none)
  else none

/-- `Grid.downsample(levels, dims=None, min_size=1, align_corners=None)` with
the default `dims` (all spatial dimensions). -/
def Grid.downsample (g : Grid D) (levels : ℤ) (min_size : ℤ) : Grid D :=
  let scale : ℚ := (2 : ℚ) ^ levels
  let size : Fin D → ℚ := fun i => g.size i / scale
  let size : Fin D → ℚ := fun i => if (min_size : ℚ) ≤ size i then size i else g.size i
  g._resize size none

/-- `Grid.upsample(levels, dims=None, align_corners=None)` with the default
`dims` (all spatial dimensions). -/
def Grid.upsample (g : Grid D) (levels : ℤ) : Grid D :=
  let scale : ℚ := (2 : ℚ) ^ levels
  g._resize (fun i => g.size i * scale) none

/-- Python `int(q)`: truncation toward zero. -/
def intTrunc (q : ℚ) : ℤ :=
  if q < 0 then ⌈q⌉ else ⌊q⌋

/-- The coarsest-level size of `Grid.pyramid` for one dimension:
`int(0.5 + (n + m) / 2**levels)`. -/
def pyCoarse (n m : ℤ) (L : ℕ) : ℤ :=
  intTrunc (1 / 2 + ((n : ℚ) + (m : ℚ)) / (2 : ℚ) ^ L)

/-- The back-fill loop of `Grid.pyramid`
(`sizes[level] = 2 * sizes[level + 1] - 1`), expressed as a function of the
distance `j = levels - level` from the coarsest level. -/
def pyBackfill (c : ℤ) : ℕ → ℤ
  | 0 => c
  | j + 1 => 2 * pyBackfill c j - 1

/-- The forward pass of `Grid.pyramid`
(`sizes[level] = (sizes[level - 1] + 1) // 2`, reset to the previous level's
size when below `min_size`), starting from the back-filled level-0 size. -/
def pyForward (s0 min_size : ℤ) : ℕ → ℤ
  | 0 => s0
  | l + 1 =>
      let v := (pyForward s0 min_size l + 1).fdiv 2
      if v < min_size then pyForward s0 min_size l else v

/-- `Grid.pyramid(levels, dims=None, min_size)` with the default `dims` (all
spatial dimensions): the per-dimension size computations of the three loops,
followed by `self.resize(size)` for each level. The returned dictionary is
modelled as an association list over the keys `0 .. levels`. -/
def Grid.pyramid (g : Grid D) (levels : ℕ) (min_size : ℤ) :
    Option (List (ℕ × Grid D)) :=
  let m : ℤ :=
    if g.align_corners then (((List.range levels).map (fun i => (2 : ℤ) ^ i)).sum) else 0
  let sizeFor : ℕ → Fin D → ℤ := fun level i =>
    let c := pyCoarse (g.isize i) m levels
    if level = 0 then pyBackfill c levels
    else pyForward (pyBackfill c levels) min_size level
  (List.range (levels + 1)).mapM (fun level =>
    (g.resize (sizeFor level)).map (fun h => (level, h)))

/-- `Grid.crop(margin)` for a scalar integer margin (`margin=n` is equivalent
to `num=(n,) * 2 * ndim`; the other argument forms are not needed by the
claims). The source passes `align_corners=self.align_corners` — the bound
method object, which is always truthy — to the constructor, which stores
`bool(...)`, hence `true` below. -/
def Grid.crop (g : Grid D) (n : ℤ) : Option (Grid D) :=
  if n = 0 then some g    -- `if all(n == 0 for n in num): return self`
  else
    let size : Fin D → ℚ := fun i => max (g.size i - 2 * (n : ℚ)) 1
    let size : Fin D → ℚ := fun i => if 0 < g.size i then size i else g.size i
    let origin := g.index_to_world (fun _ => (n : ℚ))
    Grid.init size none (some origin) g.spacing g.direction true

/-- `Grid.pad(margin)` for a scalar integer margin; see `Grid.crop` for the
`align_corners` coercion. -/
def Grid.pad (g : Grid D) (n : ℤ) : Option (Grid D) :=
  if n = 0 then some g
  else
    let size : Fin D → ℚ := fun i => max (g.size i + 2 * (n : ℚ)) 1
    let size : Fin D → ℚ := fun i => if 0 < g.size i then size i else g.size i
    let origin := g.index_to_world (fun _ => (-n : ℚ))
    Grid.init size none (some origin) g.spacing g.direction true

/-- `Grid.center_crop(size)`: shrink each axis to the minimum of the current
and the requested size, centered; see `Grid.crop` for the `align_corners`
coercion. -/
def Grid.center_crop (g : Grid D) (size : Fin D → ℤ) : Option (Grid D) :=
  let size' : Fin D → ℤ := fun i => min (g.isize i) (size i)
  let originIndex : Fin D → ℚ := fun i => (((g.isize i - size' i).fdiv 2 : ℤ) : ℚ)
  Grid.init (fun i => ((size' i : ℤ) : ℚ)) none (some (g.index_to_world originIndex))
    g.spacing g.direction true

/-- `Grid.center_pad(size)`: grow each axis to the maximum of the current and
the requested size, centered; see `Grid.crop` for the `align_corners`
coercion. -/
def Grid.center_pad (g : Grid D) (size : Fin D → ℤ) : Option (Grid D) :=
  let size' : Fin D → ℤ := fun i => max (g.isize i) (size i)
  let originIndex : Fin D → ℚ := fun i => (-((size' i - g.isize i).fdiv 2 : ℤ) : ℚ)
  Grid.init (fun i => ((size' i : ℤ) : ℚ)) none (some (g.index_to_world originIndex))
    g.spacing g.direction true

/-- `Grid.narrow(dim, start, length)`: raises `IndexError` (modelled `none`)
when `dim > ndim`; see `Grid.crop` for the `align_corners` coercion. -/
def Grid.narrow (g : Grid D) (dim : ℕ) (start length : ℤ) : Option (Grid D) :=
  if D < dim then none
  else
    let size : Fin D → ℚ := fun d => if (d : ℕ) = dim then ((length : ℤ) : ℚ) else ((g.isize d : ℤ) : ℚ)
    let originIndex : Fin D → ℚ := fun d => if (d : ℕ) = dim then ((start : ℤ) : ℚ) else 0
    Grid.init size none (some (g.index_to_world originIndex)) g.spacing g.direction true

/-- `Grid.pool(kernel_size, ceil_mode)` for a scalar kernel size with the
default `stride`, `padding` and `dilation` (for which the source raises
`NotImplementedError`). The source computes the new origin from the index
list `[(kernel_size - 1) / 2] * 3` of fixed length 3, modelled here as the
constant index vector; see `Grid.crop` for the `align_corners` coercion. -/
def Grid.pool (g : Grid D) (kernel_size : ℤ) (ceil_mode : Bool) : Option (Grid D) :=
  let sz : Fin D → ℤ := fun i =>
    let q := g.size_tensor i / (kernel_size : ℚ)
    if ceil_mode then ⌈q⌉ else ⌊q⌋
  let originIndex : Fin D → ℚ := fun _ => ((kernel_size : ℚ) - 1) / 2
  Grid.init (fun i => ((sz i : ℤ) : ℚ)) none (some (g.index_to_world originIndex))
    (fun i => (kernel_size : ℚ) * g.spacing i) g.direction true

/-- `Grid.numpy()`: the flattened attribute sequence
`(size, spacing, center, direction row-major)` of length `(D + 3) * D`. -/
def Grid.numpy (g : Grid D) : List ℚ :=
  List.ofFn g.size ++ List.ofFn g.spacing ++ List.ofFn g.center ++
    (List.ofFn (fun i : Fin D => List.ofFn (fun j : Fin D => g.direction i j))).flatten

/-- The construction `Grid(**kwargs)` performed by `Grid.from_seq` once the
number `d` of dimensions has been determined from the sequence length. -/
def Grid.buildFromSeq (d : ℕ) (attrs : List ℚ) (origin : Bool) (ac : Bool) :
    Option (Grid d) :=
  let size : Fin d → ℚ := fun i => attrs.getD i 0
  let spacing : Fin d → ℚ := fun i => attrs.getD (d + i) 0
  let third : Fin d → ℚ := fun i => attrs.getD (2 * d + i) 0
  let direction : Matrix (Fin d) (Fin d) ℚ := fun i j => attrs.getD (3 * d + d * i + j) 0
  if origin then Grid.init size none (some third) spacing direction ac
  else Grid.init size (some third) none spacing direction ac

/-- `Grid.from_seq(attrs, origin, align_corners)`: accepts only sequences of
length 10 (`D=2`) or 18 (`D=3`), raising `ValueError` (modelled `none`)
otherwise. -/
def Grid.from_seq (attrs : List ℚ) (origin : Bool) (ac : Bool) :
    Option ((d : ℕ) × Grid d) :=
  if attrs.length = 10 then (Grid.buildFromSeq 2 attrs origin ac).map (fun h => ⟨2, h⟩)
  else if attrs.length = 18 then (Grid.buildFromSeq 3 attrs origin ac).map (fun h => ⟨3, h⟩)
  else none

/-- Example grid of the spec scenarios: 2D, size `(4, 4)`, unit spacing,
center at the world origin, identity direction, `align_corners=True`. -/
def exGrid : Grid 2 := ⟨![4, 4], ![1, 1], ![0, 0], 1, true⟩

/-- The same grid with `align_corners=False`. -/
def exGridF : Grid 2 := ⟨![4, 4], ![1, 1], ![0, 0], 1, false⟩

/-- A grid with a degenerate first axis of size 1, with
`align_corners=False` so that the `_resize` spacing formulas divide only by
positive sizes and the source's extent assert holds exactly. -/
def exGridDeg : Grid 2 := ⟨![1, 4], ![1, 1], ![0, 0], 1, false⟩

/-- A 2D grid with non-trivial spacing, center and direction (a 90-degree
rotation). -/
def exGridRot : Grid 2 := ⟨![4, 3], ![1, 2], ![5, -1], !![0, -1; 1, 0], true⟩

/-- A 3D example grid. -/
def exGrid3 : Grid 3 := ⟨![2, 3, 4], ![1, 1, 2], ![1, 0, -2], 1, true⟩

/-- A grid of size `(5, 5)` (congruent to 1 mod 4). -/
def exGrid5 : Grid 2 := ⟨![5, 5], ![1, 1], ![0, 0], 1, true⟩

/-- A grid of odd size `(3, 3)` with `align_corners=False`. -/
def exGridOddF : Grid 2 := ⟨![3, 3], ![1, 1], ![0, 0], 1, false⟩

/-- A shear matrix: determinant 1 but not orthonormal. -/
def shearM : Matrix (Fin 2) (Fin 2) ℚ := !![1, 1; 0, 1]

/-- A 90-degree rotation matrix. -/
def rotM : Matrix (Fin 2) (Fin 2) ℚ := !![0, -1; 1, 0]

/-! Helper lemmas. -/

theorem roundSizeInt_intCast (k : ℤ) : roundSizeInt ((k : ℤ) : ℚ) = k := by
  unfold roundSizeInt
  by_cases h : ((k : ℤ) : ℚ) = 0
  · simp [h, show k = 0 by exact_mod_cast h]
  · simp [h, Int.ceil_intCast]

theorem diagonal_mulVec_eq (d v : Fin D → ℚ) :
    (Matrix.diagonal d).mulVec v = fun i => d i * v i := by
  funext i
  rw [Matrix.mulVec_diagonal]

theorem affine_mulVec (g : Grid D) (v : Fin D → ℚ) :
    g.affine.mulVec v = g.direction.mulVec (fun i => g.spacing i * v i) := by
  unfold Grid.affine
  rw [← Matrix.mulVec_mulVec, diagonal_mulVec_eq]

/-- Characterization of `Grid._resize` on an actually changed size. -/
theorem resize_neq (g : Grid D) (f : Fin D → ℚ) (hne : f ≠ g.size) :
    g._resize f none =
      { g with
          size := f,
          spacing := fun i =>
            if 0 < g.size i then
              (if g.align_corners then
                (g.extent i - g.spacing i) / (((roundSizeInt (f i) : ℤ) : ℚ) - 1)
              else g.extent i / ((roundSizeInt (f i) : ℤ) : ℚ))
            else g.spacing i } := by
  unfold Grid._resize
  rw [if_neg hne]
  ext1
  · rfl
  · funext i
    by_cases hac : g.align_corners <;> simp [hac, Option.getD]
  · rfl
  · rfl
  · rfl

/-- C1: resizing to a valid target size preserves the origin exactly when
`align_corners=True` (target at least 2 where the size is positive, 0 where it
is 0), preserves the extent exactly when `align_corners=False` (target at
least 1 where the size is positive, 0 where it is 0), and always leaves the
spacing untouched along dimensions whose stored size is exactly 0. The
hypotheses delimit the target sizes for which the division in the respective
spacing formula is defined and the runtime assertion of `_resize` passes;
exact preservation over ℚ implies the claimed floating tolerance. -/
theorem C1_resize_invariants (g : Grid D) (ns : Fin D → ℤ)
    (hnn : ∀ i, 0 ≤ g.size i) (h0 : ∀ i, 0 ≤ ns i) :
    (g.align_corners = true →
      (∀ i, 0 < g.size i → 2 ≤ ns i) → (∀ i, g.size i = 0 → ns i = 0) →
      ∃ h, g.resize ns = some h ∧ h.origin = g.origin) ∧
    (g.align_corners = false →
      (∀ i, 0 < g.size i → 1 ≤ ns i) → (∀ i, g.size i = 0 → ns i = 0) →
      ∃ h, g.resize ns = some h ∧ h.extent = g.extent) ∧
    (∀ h, g.resize ns = some h → ∀ i, g.size i = 0 → h.spacing i = g.spacing i) := by
  have hres : g.resize ns = some (g._resize (fun i => ((ns i : ℤ) : ℚ)) none) := by
    unfold Grid.resize
    rw [if_pos h0]
  by_cases hsz : (fun i => ((ns i : ℤ) : ℚ)) = g.size
  · have hr : g._resize (fun i => ((ns i : ℤ) : ℚ)) none = g := by
      unfold Grid._resize
      rw [if_pos hsz]
    rw [hr] at hres
    refine ⟨fun _ _ _ => ⟨g, hres, rfl⟩, fun _ _ _ => ⟨g, hres, rfl⟩, ?_⟩
    intro h hh i _
    rw [hres] at hh
    cases hh
    rfl
  · rw [resize_neq g _ hsz] at hres
    set h := ({ g with
          size := fun i => ((ns i : ℤ) : ℚ),
          spacing := fun i =>
            if 0 < g.size i then
              (if g.align_corners then
                (g.extent i - g.spacing i) / (((roundSizeInt ((ns i : ℚ)) : ℤ) : ℚ) - 1)
              else g.extent i / ((roundSizeInt ((ns i : ℚ)) : ℤ) : ℚ))
            else g.spacing i } : Grid D) with hh
    have hzero_st : ∀ i, g.size i = 0 → ns i = 0 →
        h.size_tensor i = 0 ∧ g.size_tensor i = 0 := by
      intro i hz' hns0
      constructor
      · show ((roundSizeInt (h.size i) : ℤ) : ℚ) = 0
        have hs : h.size i = ((ns i : ℤ) : ℚ) := rfl
        rw [hs, hns0]
        simp [roundSizeInt]
      · show ((roundSizeInt (g.size i) : ℤ) : ℚ) = 0
        rw [hz']
        simp [roundSizeInt]
    have hst : ∀ i, h.size_tensor i = ((ns i : ℤ) : ℚ) := by
      intro i
      show ((roundSizeInt (h.size i) : ℤ) : ℚ) = _
      have hs : h.size i = ((ns i : ℤ) : ℚ) := rfl
      rw [hs, roundSizeInt_intCast]
    refine ⟨?_, ?_, ?_⟩
    · intro hac h2 hz
      refine ⟨h, hres, ?_⟩
      have key : (fun i => h.spacing i * h.originOffset i) =
          (fun i => g.spacing i * g.originOffset i) := by
        funext i
        rcases (hnn i).lt_or_eq with hpos | hzero
        · have hns2 : 2 ≤ ns i := h2 i hpos
          have hMpos : (0 : ℚ) < ((ns i : ℤ) : ℚ) := by
            have hi : (0 : ℤ) < ns i := by omega
            exact_mod_cast hi
          have hoff : h.originOffset i = (((ns i : ℤ) : ℚ) - 1) / 2 := by
            unfold Grid.originOffset
            rw [hst i, if_pos hMpos]
          have hsp : h.spacing i =
              (g.extent i - g.spacing i) / (((ns i : ℤ) : ℚ) - 1) := by
            show (if 0 < g.size i then _ else _) = _
            rw [if_pos hpos, hac, if_pos rfl, roundSizeInt_intCast]
          have hNpos : (0 : ℚ) < g.size_tensor i := by
            unfold Grid.size_tensor roundSizeInt
            rw [if_neg (ne_of_gt hpos)]
            have hc : (0 : ℤ) < ⌈g.size i⌉ := Int.ceil_pos.mpr hpos
            exact_mod_cast hc
          have hgoff : g.originOffset i = (g.size_tensor i - 1) / 2 := by
            unfold Grid.originOffset
            rw [if_pos hNpos]
          rw [hoff, hsp, hgoff]
          unfold Grid.extent
          have hM1 : ((ns i : ℤ) : ℚ) - 1 ≠ 0 := by
            have h1 : (1 : ℚ) < ((ns i : ℤ) : ℚ) := by
              have hi : (1 : ℤ) < ns i := by omega
              exact_mod_cast hi
            intro hcon
            nlinarith
          field_simp
          ring
        · have hz' : g.size i = 0 := hzero.symm
          obtain ⟨hst0, hgst0⟩ := hzero_st i hz' (hz i hz')
          have hoff : h.originOffset i = 0 := by
            unfold Grid.originOffset
            rw [hst0]
            norm_num
          have hgoff : g.originOffset i = 0 := by
            unfold Grid.originOffset
            rw [hgst0]
            norm_num
          rw [hoff, hgoff, mul_zero, mul_zero]
      show h.center - h.affine.mulVec h.originOffset =
        g.center - g.affine.mulVec g.originOffset
      rw [affine_mulVec, affine_mulVec, key]
    · intro hac h1 hz
      refine ⟨h, hres, ?_⟩
      funext i
      show h.spacing i * h.size_tensor i = g.spacing i * g.size_tensor i
      rcases (hnn i).lt_or_eq with hpos | hzero
      · have hns1 : 1 ≤ ns i := h1 i hpos
        have hsp : h.spacing i = g.extent i / ((ns i : ℤ) : ℚ) := by
          show (if 0 < g.size i then _ else _) = _
          rw [if_pos hpos, hac]
          simp [roundSizeInt_intCast]
        have hMne : ((ns i : ℤ) : ℚ) ≠ 0 := by
          have hi : (0 : ℤ) < ns i := by omega
          have hq : (0 : ℚ) < ((ns i : ℤ) : ℚ) := by exact_mod_cast hi
          exact ne_of_gt hq
        rw [hst i, hsp]
        unfold Grid.extent
        field_simp
      · have hz' : g.size i = 0 := hzero.symm
        obtain ⟨hst0, hgst0⟩ := hzero_st i hz' (hz i hz')
        rw [hst0, hgst0, mul_zero, mul_zero]
    · intro h' hh' i hz'
      rw [hres] at hh'
      cases hh'
      show (if 0 < g.size i then _ else _) = _
      rw [if_neg (by rw [hz']; norm_num)]

/-- Witness for C1 at the example grid with target size `(8, 8)`. -/
theorem C1_witness :
    (∀ i : Fin 2, 0 ≤ exGrid.size i) ∧ (∀ i : Fin 2, (0 : ℤ) ≤ (![8, 8] : Fin 2 → ℤ) i) ∧
    exGrid.align_corners = true ∧
    (∃ h, exGrid.resize ![8, 8] = some h ∧ h.origin = exGrid.origin) :=
  ⟨by decide, by decide, rfl,
    (C1_resize_invariants exGrid ![8, 8] (by decide) (by decide)).1 rfl (by decide) (by decide)⟩

/-- C2: evaluation of `Grid.transform` at the failing input. For the pair
`CUBE → CUBE_CORNERS` (and its reverse) with `vectors=False` the source omits
the `homogeneous_matrix` wrap and returns a plain `(D, D)` matrix (no
translation column), contradicting the documented `(D, D + 1)` point-transform
shape; other pairs do carry the translation column. -/
theorem C2_transform_shape_bug :
    (exGrid.transform Axes.CUBE Axes.CUBE_CORNERS false).offset = none ∧
    (exGrid.transform Axes.CUBE_CORNERS Axes.CUBE false).offset = none ∧
    (exGrid.transform Axes.GRID Axes.WORLD false).offset.isSome = true ∧
    (exGrid.transform Axes.WORLD Axes.CUBE false).offset.isSome = true := by
  decide

/-- C9: the example scenario values for the 2D grid with `size=(4, 4)`,
`spacing=(1, 1)`, `center=(0, 0)`, identity direction: origin and cube extent
under `align_corners=True`, and `index_to_cube` of the extreme indices under
both alignment policies. -/
theorem C9_example_values :
    exGrid.origin = ![-(3 / 2 : ℚ), -(3 / 2)] ∧
    exGrid.cube_extent = ![(3 : ℚ), 3] ∧
    exGrid.index_to_cube ![0, 0] none = ![-(1 : ℚ), -1] ∧
    exGrid.index_to_cube ![3, 3] none = ![(1 : ℚ), 1] ∧
    exGridF.index_to_cube ![0, 0] none = ![-(3 / 4 : ℚ), -(3 / 4)] ∧
    exGridF.index_to_cube ![3, 3] none = ![(3 / 4 : ℚ), 3 / 4] := by
  decide

/-- C3 counterexample: for `A=CUBE`, `B=CUBE_CORNERS`, `C=GRID` on the example
grid, the composed point transform is not the direct one — the
`CUBE → CUBE_CORNERS` factor lacks the translation column of a homogeneous
point transform, so the homogeneous composition cannot reproduce the direct
`(D, D + 1)` result. -/
theorem C3_counterexample :
    hmm (exGrid.transform Axes.CUBE_CORNERS Axes.GRID false)
        (exGrid.transform Axes.CUBE Axes.CUBE_CORNERS false) ≠
      exGrid.transform Axes.CUBE Axes.GRID false := by
  decide

/-- C4 counterexample: for the `align_corners=False` grid with size `(1, 4)`
the round trip `downsample(1).upsample(1)` yields size `(2, 4)` — the
`min_size=1` clamp of `downsample` keeps the size-1 axis at 1, which
`upsample` then doubles — so the result is not equal to the original grid.
Along this trace every spacing rescale divides by a positive rounded size and
the extent is preserved exactly, so the source's `_resize` assert passes and
the code returns this grid. -/
theorem C4_counterexample :
    ((exGridDeg.downsample 1 1).upsample 1).size = ![2, 4] ∧
      gridEq ((exGridDeg.downsample 1 1).upsample 1) exGridDeg = false := by
  exact ⟨by decide, by decide⟩

/-- C5 counterexample: for the size-`(4, 4)` grid with `align_corners=True`
and `levels=1`, the back-fill loop of `pyramid` overwrites the level-0 size
with `2 * 3 - 1 = 5`, so the level-0 entry is the grid resized to `(5, 5)`,
not the original grid. -/
theorem C5_counterexample :
    ((exGrid.pyramid 1 0).bind List.head?).map (fun p => (p.1, gridEq p.2 exGrid)) =
      some (0, false) := by
  decide

/-- C8 counterexample: the shear matrix `[[1, 1], [0, 1]]` is not orthonormal,
yet construction succeeds, because the source validates only the determinant
magnitude (within `1e-4` of 1), not orthonormality. -/
theorem C8_counterexample :
    (Grid.init ![(4 : ℚ), 4] none none ![1, 1] shearM true).isSome = true ∧
      shearM.transpose * shearM ≠ 1 := by
  decide

/-- C10 counterexample: `crop` with an all-zero margin returns the grid
itself, so its `align_corners` flag stays `False`; the coerced `True` is only
produced on the constructor path taken for non-zero margins. -/
theorem C10_counterexample :
    exGridF.crop 0 = some exGridF ∧ exGridF.align_corners = false := by
  exact ⟨rfl, rfl⟩

/-- C8 (amended): given a positive dimension and positive spacing,
construction succeeds exactly when the determinant magnitude of the direction
matrix is within `1e-4` of 1; orthonormality itself is not what is checked
(see the counterexample for an accepted shear). -/
theorem C8_direction_check_amended (size spacing : Fin D → ℚ)
    (direction : Matrix (Fin D) (Fin D) ℚ) (ac : Bool)
    (hD : 0 < D) (hsp : ∀ i, 0 < spacing i) :
    (Grid.init size none none spacing direction ac).isSome = true ↔
      |(|direction.det|) - 1| ≤ 1 / 10000 := by
  unfold Grid.init
  rw [if_neg (by omega : ¬ D = 0), if_neg (not_not_intro hsp)]
  by_cases hdet : |(|direction.det|) - 1| ≤ 1 / 10000
  · rw [if_neg (not_not_intro hdet)]
    simpa using hdet
  · rw [if_pos hdet]
    simpa using hdet

/-- Witness for C8: a 90-degree rotation is accepted. -/
theorem C8_witness :
    0 < 2 ∧ (∀ i : Fin 2, 0 < (![1, 1] : Fin 2 → ℚ) i) ∧
    (Grid.init ![(4 : ℚ), 4] none none ![1, 1] rotM true).isSome = true :=
  ⟨by norm_num, by decide,
    (C8_direction_check_amended ![(4 : ℚ), 4] ![1, 1] rotM true (by norm_num) (by decide)).mpr
      (by decide)⟩

/-- Every grid produced by the constructor carries the `align_corners`
argument it was given. -/
theorem init_align_corners {size spacing : Fin D → ℚ} {c? o? : Option (Fin D → ℚ)}
    {direction : Matrix (Fin D) (Fin D) ℚ} {ac : Bool} (h : Grid D)
    (hh : Grid.init size c? o? spacing direction ac = some h) : h.align_corners = ac := by
  unfold Grid.init at hh
  repeat' split at hh
  all_goals try (dsimp only at hh; split at hh)
  all_goals try (cases hh)
  all_goals rfl

/-- `Option.all` from a pointwise property. -/
theorem option_all_of_forall {α : Type} (p : α → Bool) (o : Option α)
    (ho : ∀ h, o = some h → p h = true) : Option.all p o = true := by
  cases o with
  | none => rfl
  | some x => simpa using ho x rfl

/-- C10 (amended): every grid returned by `crop` and `pad` with a non-zero
margin, and by `center_crop`, `center_pad`, `narrow` and `pool`, has
`align_corners = True`, because those paths pass the always-truthy accessor
method object to the constructor; the all-zero-margin `crop`/`pad` path
returns the grid itself (see the counterexample). -/
theorem C10_align_corners_amended (g : Grid D) (n : ℤ) (s : Fin D → ℤ)
    (dim : ℕ) (start len k : ℤ) (cm : Bool) (hn : n ≠ 0) :
    Option.all (fun h => h.align_corners) (g.crop n) = true ∧
    Option.all (fun h => h.align_corners) (g.pad n) = true ∧
    Option.all (fun h => h.align_corners) (g.center_crop s) = true ∧
    Option.all (fun h => h.align_corners) (g.center_pad s) = true ∧
    Option.all (fun h => h.align_corners) (g.narrow dim start len) = true ∧
    Option.all (fun h => h.align_corners) (g.pool k cm) = true := by
  refine ⟨?_, ?_, ?_, ?_, ?_, ?_⟩
  · unfold Grid.crop
    rw [if_neg hn]
    exact option_all_of_forall _ _ (fun h hh => init_align_corners h hh)
  · unfold Grid.pad
    rw [if_neg hn]
    exact option_all_of_forall _ _ (fun h hh => init_align_corners h hh)
  · unfold Grid.center_crop
    dsimp only
    exact option_all_of_forall _ _ (fun h hh => init_align_corners h hh)
  · unfold Grid.center_pad
    dsimp only
    exact option_all_of_forall _ _ (fun h hh => init_align_corners h hh)
  · unfold Grid.narrow
    by_cases hd : D < dim
    · rw [if_pos hd]
      rfl
    · rw [if_neg hd]
      dsimp only
      exact option_all_of_forall _ _ (fun h hh => init_align_corners h hh)
  · unfold Grid.pool
    dsimp only
    exact option_all_of_forall _ _ (fun h hh => init_align_corners h hh)

/-- Witness for C10 on a grid with `align_corners = False`. -/
theorem C10_witness :
    (1 : ℤ) ≠ 0 ∧
    Option.all (fun h => h.align_corners) (exGridF.crop 1) = true ∧
    Option.all (fun h => h.align_corners) (exGridF.pad 1) = true ∧
    Option.all (fun h => h.align_corners) (exGridF.center_crop ![2, 2]) = true ∧
    Option.all (fun h => h.align_corners) (exGridF.center_pad ![6, 6]) = true ∧
    Option.all (fun h => h.align_corners) (exGridF.narrow 0 1 2) = true ∧
    Option.all (fun h => h.align_corners) (exGridF.pool 2 false) = true ∧
    (exGridF.crop 1).isSome = true ∧ (exGridF.pool 2 false).isSome = true := by
  obtain ⟨h1, h2, h3, h4, h5, h6⟩ :=
    C10_align_corners_amended exGridF 1 ![2, 2] 0 1 2 2 false (by decide)
  exact ⟨by decide, h1, h2, h3, h4, h5, h6, by decide, by decide⟩

/-- Exact attribute equality implies `Grid.__eq__` (tolerance) equality. -/
theorem gridEq_of_eq (a b : Grid D) (h1 : a.size = b.size) (h2 : a.center = b.center)
    (h3 : a.spacing = b.spacing) (h4 : a.direction = b.direction) : gridEq a b = true := by
  unfold gridEq allcloseV allcloseM
  rw [h1, h2, h3, h4]
  simp only [Bool.and_eq_true, decide_eq_true_eq]
  refine ⟨⟨⟨?_, ?_⟩, ?_⟩, ?_⟩
  · intro i
    simp only [sub_self, abs_zero]
    positivity
  · intro i
    simp only [sub_self, abs_zero]
    positivity
  · intro i
    simp only [sub_self, abs_zero]
    positivity
  · intro i j
    simp only [sub_self, abs_zero]
    positivity

/-- C4 (amended): `g.downsample(1).upsample(1) == g` holds exactly, also for
sizes that are not powers of two, provided every axis has stored size either
0, or above 2 when `align_corners=True` (at least 2 when `False`); the
excluded sizes hit the `min_size=1` clamp of `downsample` (see the
counterexample) or a division by zero in the spacing rescale. -/
theorem C4_down_up_roundtrip_amended (g : Grid D)
    (hs : ∀ i, g.size i = 0 ∨ (if g.align_corners then 2 < g.size i else 2 ≤ g.size i)) :
    gridEq ((g.downsample 1 1).upsample 1) g = true := by
  have hdown : g.downsample 1 1 =
      g._resize (fun i => if (1 : ℚ) ≤ g.size i / 2 then g.size i / 2 else g.size i) none := by
    unfold Grid.downsample
    norm_num
  have hup : ∀ h : Grid D, h.upsample 1 = h._resize (fun i => h.size i * 2) none := by
    intro h
    unfold Grid.upsample
    norm_num
  by_cases hall : ∀ i, g.size i = 0
  · have hf : (fun i => if (1 : ℚ) ≤ g.size i / 2 then g.size i / 2 else g.size i) = g.size := by
      funext i
      rw [hall i]
      norm_num
    rw [hf] at hdown
    have hd : g.downsample 1 1 = g := by
      rw [hdown]
      unfold Grid._resize
      rw [if_pos rfl]
    rw [hd, hup g]
    have hf2 : (fun i => g.size i * 2) = g.size := by
      funext i
      rw [hall i]
      ring
    rw [hf2]
    unfold Grid._resize
    rw [if_pos rfl]
    exact gridEq_of_eq g g rfl rfl rfl rfl
  · push_neg at hall
    obtain ⟨j, hj⟩ := hall
    -- every non-zero axis has size at least 2
    have hge2 : ∀ i, g.size i ≠ 0 → 2 ≤ g.size i := by
      intro i hi
      rcases hs i with h | h
      · exact absurd h hi
      · by_cases hac : g.align_corners <;> simp [hac] at h
        · linarith
        · linarith
    set f : Fin D → ℚ := fun i => if (1 : ℚ) ≤ g.size i / 2 then g.size i / 2 else g.size i with hfdef
    have hfval : ∀ i, g.size i ≠ 0 → f i = g.size i / 2 := by
      intro i hi
      have := hge2 i hi
      show (if (1 : ℚ) ≤ g.size i / 2 then g.size i / 2 else g.size i) = _
      rw [if_pos (by linarith)]
    have hfzero : ∀ i, g.size i = 0 → f i = 0 := by
      intro i hi
      show (if (1 : ℚ) ≤ g.size i / 2 then g.size i / 2 else g.size i) = _
      rw [hi]
      norm_num
    have hne1 : f ≠ g.size := by
      intro hcon
      have := congrFun hcon j
      rw [hfval j hj] at this
      have : g.size j = 0 := by linarith
      exact hj this
    rw [resize_neq g f hne1] at hdown
    set D1 := ({ g with
        size := f,
        spacing := fun i =>
          if 0 < g.size i then
            (if g.align_corners then
              (g.extent i - g.spacing i) / (((roundSizeInt (f i) : ℤ) : ℚ) - 1)
            else g.extent i / ((roundSizeInt (f i) : ℤ) : ℚ))
          else g.spacing i } : Grid D) with hD1
    have hi2 : ∀ i, g.size i ≠ 0 → (1 : ℚ) ≤ f i := by
      intro i hi
      rw [hfval i hi]
      have := hge2 i hi
      linarith
    have hne2 : (fun i => D1.size i * 2) ≠ D1.size := by
      intro hcon
      have hji := congrFun hcon j
      have hD1j : D1.size j = f j := rfl
      rw [hD1j] at hji
      have h1j := hi2 j hj
      nlinarith
    rw [hdown, hup D1, resize_neq D1 _ hne2]
    apply gridEq_of_eq
    · funext i
      show D1.size i * 2 = g.size i
      have hD1i : D1.size i = f i := rfl
      rw [hD1i]
      by_cases hi : g.size i = 0
      · rw [hfzero i hi, hi]
        ring
      · rw [hfval i hi]
        ring
    · rfl
    · funext i
      by_cases hi : g.size i = 0
      · -- degenerate axis: spacing untouched twice
        have hD1i : D1.size i = 0 := by
          show f i = 0
          exact hfzero i hi
        show (if 0 < D1.size i then _ else _) = g.spacing i
        rw [if_neg (by rw [hD1i]; norm_num)]
        show (if 0 < g.size i then _ else _) = g.spacing i
        rw [if_neg (by rw [hi]; norm_num)]
      · -- positive axis
        have hsz2 : 2 ≤ g.size i := hge2 i hi
        have hD1i : D1.size i = g.size i / 2 := hfval i hi
        have hD1pos : 0 < D1.size i := by
          rw [hD1i]
          linarith
        have hsz2x : D1.size i * 2 = g.size i := by
          rw [hD1i]
          ring
        have hsp1 : D1.spacing i =
            (if g.align_corners then
              (g.extent i - g.spacing i) / (((roundSizeInt (f i) : ℤ) : ℚ) - 1)
            else g.extent i / ((roundSizeInt (f i) : ℤ) : ℚ)) := by
          show (if 0 < g.size i then _ else _) = _
          rw [if_pos (by linarith : 0 < g.size i)]
        have hstD1 : D1.size_tensor i = ((roundSizeInt (f i) : ℤ) : ℚ) := rfl
        have hext : g.extent i = g.spacing i * ((roundSizeInt (g.size i) : ℤ) : ℚ) := rfl
        set M : ℤ := roundSizeInt (f i) with hM
        set N : ℤ := roundSizeInt (g.size i) with hN
        have hNval : N = ⌈g.size i⌉ := by
          rw [hN]
          unfold roundSizeInt
          rw [if_neg hi]
        have hNge2 : (2 : ℚ) ≤ (N : ℚ) := by
          have hle : g.size i ≤ (⌈g.size i⌉ : ℚ) := Int.le_ceil _
          rw [hNval]
          linarith
        have hMval : M = ⌈g.size i / 2⌉ := by
          rw [hM, hfval i hi]
          unfold roundSizeInt
          rw [if_neg (by intro hcon; apply hi; linarith)]
        have hMge1 : (1 : ℚ) ≤ (M : ℚ) := by
          have hle : g.size i / 2 ≤ (⌈g.size i / 2⌉ : ℚ) := Int.le_ceil _
          rw [hMval]
          linarith
        show (if 0 < D1.size i then _ else _) = g.spacing i
        rw [if_pos hD1pos]
        have hroundUp : roundSizeInt (D1.size i * 2) = N := by
          rw [hsz2x, hN]
        by_cases hac : g.align_corners
        · have hacD1 : D1.align_corners = true := hac
          have hsz2s : 2 < g.size i := by
            rcases hs i with h | h
            · exact absurd h hi
            · rw [hac] at h
              simpa using h
          have hMge2 : (2 : ℚ) ≤ (M : ℚ) := by
            have : (1 : ℤ) < M := by
              rw [hMval]
              rw [Int.lt_ceil]
              linarith
            exact_mod_cast this
          have hNge3 : (3 : ℚ) ≤ (N : ℚ) := by
            have : (2 : ℤ) < N := by
              rw [hNval]
              rw [Int.lt_ceil]
              push_cast
              linarith
            exact_mod_cast this
          rw [hacD1, if_pos rfl, hroundUp]
          unfold Grid.extent
          rw [hstD1, hsp1, hac, if_pos rfl, hext]
          have hM1 : (M : ℚ) - 1 ≠ 0 := by
            intro hcon
            nlinarith
          have hN1 : (N : ℚ) - 1 ≠ 0 := by
            intro hcon
            nlinarith
          field_simp
          ring
        · have hacD1 : D1.align_corners = false := by
            show g.align_corners = false
            simpa using hac
          rw [hacD1]
          simp only [Bool.false_eq_true, if_false]
          rw [hroundUp]
          unfold Grid.extent
          rw [hstD1, hsp1, if_neg hac, hext]
          have hMne : (M : ℚ) ≠ 0 := by
            intro hcon
            rw [hcon] at hMge1
            norm_num at hMge1
          have hNne : (N : ℚ) ≠ 0 := by
            intro hcon
            rw [hcon] at hNge2
            norm_num at hNge2
          field_simp
    · rfl

/-- Witness for C4 at the size-`(4, 4)` example grid. -/
theorem C4_witness :
    (∀ i : Fin 2, exGrid.size i = 0 ∨
      (if exGrid.align_corners then 2 < exGrid.size i else 2 ≤ exGrid.size i)) ∧
    gridEq ((exGrid.downsample 1 1).upsample 1) exGrid = true :=
  ⟨by decide, C4_down_up_roundtrip_amended exGrid (by decide)⟩

/-- The constructor on the origin path: explicit result. -/
theorem init_origin_eq (size o spacing : Fin D → ℚ) (direction : Matrix (Fin D) (Fin D) ℚ)
    (ac : Bool) (hD : ¬ D = 0) (hsp : ∀ i, 0 < spacing i)
    (hdet : |(|direction.det|) - 1| ≤ 1 / 10000) :
    Grid.init size none (some o) spacing direction ac =
      some ⟨fun i => max (size i) 0, spacing,
        o + (Grid.affine ⟨fun i => max (size i) 0, spacing, fun _ => 0, direction, ac⟩).mulVec
              (Grid.originOffset ⟨fun i => max (size i) 0, spacing, fun _ => 0, direction, ac⟩),
        direction, ac⟩ := by
  unfold Grid.init
  rw [if_neg hD, if_neg (not_not_intro hsp), if_neg (not_not_intro hdet)]

/-- A grid built from an origin has exactly that origin (the center stored is
`origin + affine @ offset`, and `origin()` subtracts the same term). -/
theorem origin_mk (size o spacing : Fin D → ℚ) (direction : Matrix (Fin D) (Fin D) ℚ)
    (ac : Bool) :
    Grid.origin ⟨size, spacing,
        o + (Grid.affine ⟨size, spacing, fun _ => 0, direction, ac⟩).mulVec
              (Grid.originOffset ⟨size, spacing, fun _ => 0, direction, ac⟩),
        direction, ac⟩ = o :=
  add_sub_cancel_right o _

/-- `index_to_world` is `affine @ x + origin` (the `WORLD` destination is not
rounded). -/
theorem index_to_world_eq (g : Grid D) (v : Fin D → ℚ) :
    g.index_to_world v = g.affine.mulVec v + g.origin := by
  unfold Grid.index_to_world Grid.transform_points Grid.apply_transform Grid.transform
    Grid.gridToWorld homogeneous_matrix
  norm_num
  intro hcon
  cases hcon

/-- `affine` depends only on spacing and direction. -/
theorem affine_congr (a b : Grid D) (h1 : a.spacing = b.spacing)
    (h2 : a.direction = b.direction) : a.affine = b.affine := by
  unfold Grid.affine
  rw [h1, h2]

/-- The center index offset depends only on the size. -/
theorem originOffset_congr (a b : Grid D) (h : a.size = b.size) :
    a.originOffset = b.originOffset := by
  unfold Grid.originOffset Grid.size_tensor
  rw [h]

/-- `center = origin + affine @ offset`. -/
theorem center_eq_origin_add (g : Grid D) :
    g.center = g.origin + g.affine.mulVec g.originOffset := by
  unfold Grid.origin
  rw [sub_add_cancel]

/-- Field description of a grid constructed from an origin. -/
theorem init_origin_fields (size o spacing : Fin D → ℚ)
    (direction : Matrix (Fin D) (Fin D) ℚ) (ac : Bool) (hD : ¬ D = 0)
    (hsp : ∀ i, 0 < spacing i) (hdet : |(|direction.det|) - 1| ≤ 1 / 10000) :
    ∃ h : Grid D, Grid.init size none (some o) spacing direction ac = some h ∧
      h.size = (fun i => max (size i) 0) ∧ h.spacing = spacing ∧
      h.direction = direction ∧ h.origin = o ∧
      h.center = o + h.affine.mulVec h.originOffset ∧ h.align_corners = ac := by
  refine ⟨_, init_origin_eq size o spacing direction ac hD hsp hdet, rfl, rfl, rfl,
    origin_mk _ o spacing direction ac, rfl, rfl⟩

/-- C6: for every grid and non-negative integer margin, `g.pad(n).crop(n) == g`
and `g.crop(n).pad(n) == g`, whenever the crop step does not trigger the
size-floor-of-1 clamp (for pad-then-crop that clamp fires only when some axis
has stored size strictly between 0 and 1; for crop-then-pad when
`size - 2n < 1`). Equality is exact, hence within the `__eq__` tolerance. -/
theorem C6_crop_pad_inverse (g : Grid D) (n : ℤ) (hD : 0 < D) (hn : 0 ≤ n)
    (hnn : ∀ i, 0 ≤ g.size i) (hsp : ∀ i, 0 < g.spacing i)
    (hdet : |(|g.direction.det|) - 1| ≤ 1 / 10000) :
    ((∀ i, 0 < g.size i → 1 ≤ g.size i) →
      ∃ h, (g.pad n).bind (fun k => k.crop n) = some h ∧ gridEq h g = true) ∧
    ((∀ i, 0 < g.size i → 2 * (n : ℚ) + 1 ≤ g.size i) →
      ∃ h, (g.crop n).bind (fun k => k.pad n) = some h ∧ gridEq h g = true) := by
  have hD' : ¬ D = 0 := by omega
  by_cases hn0 : n = 0
  · subst hn0
    have hp : g.pad 0 = some g := by
      unfold Grid.pad
      rw [if_pos rfl]
    have hc : g.crop 0 = some g := by
      unfold Grid.crop
      rw [if_pos rfl]
    constructor
    · intro _
      refine ⟨g, ?_, gridEq_of_eq g g rfl rfl rfl rfl⟩
      rw [hp, Option.some_bind, hc]
    · intro _
      refine ⟨g, ?_, gridEq_of_eq g g rfl rfl rfl rfl⟩
      rw [hc, Option.some_bind, hp]
  · have hn1 : 1 ≤ n := by omega
    have hn1q : (1 : ℚ) ≤ (n : ℚ) := by exact_mod_cast hn1
    have hAneg : ∀ A : Matrix (Fin D) (Fin D) ℚ,
        A.mulVec (fun _ => (-(n : ℤ) : ℚ)) = -A.mulVec (fun _ => ((n : ℤ) : ℚ)) := by
      intro A
      rw [show (fun _ => (-(n : ℤ) : ℚ)) = -(fun _ : Fin D => ((n : ℤ) : ℚ)) from
        funext fun _ => by simp]
      rw [Matrix.mulVec_neg]
    constructor
    · -- pad then crop
      intro hcl
      obtain ⟨G1, hpad', hG1size, hG1sp, hG1dir, hG1or, hG1c, _⟩ :=
        init_origin_fields
          (fun i => if 0 < g.size i then max (g.size i + 2 * (n : ℚ)) 1 else g.size i)
          (g.index_to_world (fun _ => (-n : ℚ))) g.spacing g.direction true hD' hsp hdet
      have hpad : g.pad n = some G1 := by
        unfold Grid.pad
        rw [if_neg hn0]
        exact hpad'
      have hG1sizes : ∀ i, G1.size i =
          if 0 < g.size i then g.size i + 2 * (n : ℚ) else 0 := by
        intro i
        rw [congrFun hG1size i]
        rcases (hnn i).lt_or_eq with hpos | hzero
        · rw [if_pos hpos, if_pos hpos]
          have h1 : 1 ≤ g.size i := hcl i hpos
          rw [max_eq_left (show (1 : ℚ) ≤ g.size i + 2 * (n : ℚ) by linarith),
            max_eq_left (show (0 : ℚ) ≤ g.size i + 2 * (n : ℚ) by linarith)]
        · rw [if_neg (by rw [← hzero]; norm_num), if_neg (by rw [← hzero]; norm_num),
            ← hzero]
          simp
      obtain ⟨G2, hcrop', hG2size, hG2sp, hG2dir, hG2or, hG2c, _⟩ :=
        init_origin_fields
          (fun i => if 0 < G1.size i then max (G1.size i - 2 * (n : ℚ)) 1 else G1.size i)
          (G1.index_to_world (fun _ => (n : ℚ))) G1.spacing G1.direction true hD'
          (by rw [hG1sp]; exact hsp) (by rw [hG1dir]; exact hdet)
      have hcrop : G1.crop n = some G2 := by
        unfold Grid.crop
        rw [if_neg hn0]
        exact hcrop'
      refine ⟨G2, ?_, ?_⟩
      · rw [hpad, Option.some_bind, hcrop]
      · have hsize2 : G2.size = g.size := by
          rw [hG2size]
          funext i
          rcases (hnn i).lt_or_eq with hpos | hzero
          · have h1 : 1 ≤ g.size i := hcl i hpos
            rw [hG1sizes i, if_pos hpos, if_pos (by linarith)]
            have : g.size i + 2 * (n : ℚ) - 2 * (n : ℚ) = g.size i := by ring
            rw [this, max_eq_left h1,
              max_eq_left (show (0 : ℚ) ≤ g.size i by linarith)]
          · have hgz : g.size i = 0 := hzero.symm
            rw [hG1sizes i, hgz]
            norm_num
        apply gridEq_of_eq
        · exact hsize2
        · -- center
          rw [hG2c, index_to_world_eq, hG1or, index_to_world_eq,
            affine_congr G1 g (by rw [hG1sp]) (by rw [hG1dir]),
            affine_congr G2 g (by rw [hG2sp, hG1sp]) (by rw [hG2dir, hG1dir]),
            originOffset_congr G2 g hsize2, hAneg, center_eq_origin_add g]
          abel
        · rw [hG2sp, hG1sp]
        · rw [hG2dir, hG1dir]
    · -- crop then pad
      intro hcl
      obtain ⟨G1, hcrop', hG1size, hG1sp, hG1dir, hG1or, hG1c, _⟩ :=
        init_origin_fields
          (fun i => if 0 < g.size i then max (g.size i - 2 * (n : ℚ)) 1 else g.size i)
          (g.index_to_world (fun _ => (n : ℚ))) g.spacing g.direction true hD' hsp hdet
      have hcrop : g.crop n = some G1 := by
        unfold Grid.crop
        rw [if_neg hn0]
        exact hcrop'
      have hG1sizes : ∀ i, G1.size i =
          if 0 < g.size i then g.size i - 2 * (n : ℚ) else 0 := by
        intro i
        rw [congrFun hG1size i]
        rcases (hnn i).lt_or_eq with hpos | hzero
        · have h1 : 2 * (n : ℚ) + 1 ≤ g.size i := hcl i hpos
          rw [if_pos hpos, if_pos hpos,
            max_eq_left (show (1 : ℚ) ≤ g.size i - 2 * (n : ℚ) by linarith),
            max_eq_left (show (0 : ℚ) ≤ g.size i - 2 * (n : ℚ) by linarith)]
        · rw [if_neg (by rw [← hzero]; norm_num), if_neg (by rw [← hzero]; norm_num),
            ← hzero]
          simp
      obtain ⟨G2, hpad', hG2size, hG2sp, hG2dir, hG2or, hG2c, _⟩ :=
        init_origin_fields
          (fun i => if 0 < G1.size i then max (G1.size i + 2 * (n : ℚ)) 1 else G1.size i)
          (G1.index_to_world (fun _ => (-n : ℚ))) G1.spacing G1.direction true hD'
          (by rw [hG1sp]; exact hsp) (by rw [hG1dir]; exact hdet)
      have hpad : G1.pad n = some G2 := by
        unfold Grid.pad
        rw [if_neg hn0]
        exact hpad'
      refine ⟨G2, ?_, ?_⟩
      · rw [hcrop, Option.some_bind, hpad]
      · have hsize2 : G2.size = g.size := by
          rw [hG2size]
          funext i
          rcases (hnn i).lt_or_eq with hpos | hzero
          · have h1 : 2 * (n : ℚ) + 1 ≤ g.size i := hcl i hpos
            rw [hG1sizes i, if_pos hpos, if_pos (by linarith)]
            have : g.size i - 2 * (n : ℚ) + 2 * (n : ℚ) = g.size i := by ring
            rw [this, max_eq_left (show (1 : ℚ) ≤ g.size i by linarith),
              max_eq_left (show (0 : ℚ) ≤ g.size i by linarith)]
          · have hgz : g.size i = 0 := hzero.symm
            rw [hG1sizes i, hgz]
            norm_num
        apply gridEq_of_eq
        · exact hsize2
        · rw [hG2c, index_to_world_eq, hG1or, index_to_world_eq,
            affine_congr G1 g (by rw [hG1sp]) (by rw [hG1dir]),
            affine_congr G2 g (by rw [hG2sp, hG1sp]) (by rw [hG2dir, hG1dir]),
            originOffset_congr G2 g hsize2, hAneg, center_eq_origin_add g]
          abel
        · rw [hG2sp, hG1sp]
        · rw [hG2dir, hG1dir]

/-- Witness for C6 at the example grid with margins 2 and 1. -/
theorem C6_witness :
    (0 : ℤ) ≤ 2 ∧ (∀ i : Fin 2, 0 ≤ exGrid.size i) ∧
    (∀ i : Fin 2, 0 < exGrid.spacing i) ∧
    |(|exGrid.direction.det|) - 1| ≤ 1 / 10000 ∧
    (∃ h, (exGrid.pad 2).bind (fun k => k.crop 2) = some h ∧ gridEq h exGrid = true) ∧
    (∃ h, (exGrid.crop 1).bind (fun k => k.pad 1) = some h ∧ gridEq h exGrid = true) :=
  ⟨by norm_num, by decide, by decide, by decide,
    (C6_crop_pad_inverse exGrid 2 (by norm_num) (by norm_num) (by decide) (by decide)
      (by decide)).1 (by decide),
    (C6_crop_pad_inverse exGrid 1 (by norm_num) (by norm_num) (by decide) (by decide)
      (by decide)).2 (by decide)⟩

/-- `numpy()` of a 2D grid as an explicit 10-element sequence. -/
theorem numpy_two (g : Grid 2) : g.numpy =
    [g.size 0, g.size 1, g.spacing 0, g.spacing 1, g.center 0, g.center 1,
     g.direction 0 0, g.direction 0 1, g.direction 1 0, g.direction 1 1] := rfl

/-- `numpy()` of a 3D grid as an explicit 18-element sequence. -/
theorem numpy_three (g : Grid 3) : g.numpy =
    [g.size 0, g.size 1, g.size 2, g.spacing 0, g.spacing 1, g.spacing 2,
     g.center 0, g.center 1, g.center 2,
     g.direction 0 0, g.direction 0 1, g.direction 0 2,
     g.direction 1 0, g.direction 1 1, g.direction 1 2,
     g.direction 2 0, g.direction 2 1, g.direction 2 2] := rfl

/-- The constructor on the center path: explicit result. -/
theorem init_center_eq (size c spacing : Fin D → ℚ) (direction : Matrix (Fin D) (Fin D) ℚ)
    (ac : Bool) (hD : ¬ D = 0) (hsp : ∀ i, 0 < spacing i)
    (hdet : |(|direction.det|) - 1| ≤ 1 / 10000) :
    Grid.init size (some c) none spacing direction ac =
      some ⟨fun i => max (size i) 0, spacing, c, direction, ac⟩ := by
  unfold Grid.init
  rw [if_neg hD, if_neg (not_not_intro hsp), if_neg (not_not_intro hdet)]

/-- C7: for every valid 2D or 3D grid (non-negative sizes, positive spacing,
determinant magnitude within `1e-4` of 1),
`Grid.from_seq(g.numpy(), origin=False) == g`; and `from_seq` raises
`ValueError` (modelled `none`) for every sequence length other than 10
and 18. -/
theorem C7_from_seq_roundtrip :
    (∀ g : Grid 2, (∀ i, 0 ≤ g.size i) → (∀ i, 0 < g.spacing i) →
      |(|g.direction.det|) - 1| ≤ 1 / 10000 →
      ∃ h : Grid 2, Grid.from_seq g.numpy false true = some ⟨2, h⟩ ∧ gridEq h g = true) ∧
    (∀ g : Grid 3, (∀ i, 0 ≤ g.size i) → (∀ i, 0 < g.spacing i) →
      |(|g.direction.det|) - 1| ≤ 1 / 10000 →
      ∃ h : Grid 3, Grid.from_seq g.numpy false true = some ⟨3, h⟩ ∧ gridEq h g = true) ∧
    (∀ (attrs : List ℚ) (origin ac : Bool), attrs.length ≠ 10 → attrs.length ≠ 18 →
      Grid.from_seq attrs origin ac = none) := by
  refine ⟨?_, ?_, ?_⟩
  · intro g hnn hsp hdet
    have harg1 : (fun i : Fin 2 => (g.numpy).getD (↑i) 0) = g.size := by
      rw [numpy_two g]
      funext i
      fin_cases i <;> rfl
    have harg2 : (fun i : Fin 2 => (g.numpy).getD (2 + ↑i) 0) = g.spacing := by
      rw [numpy_two g]
      funext i
      fin_cases i <;> rfl
    have harg3 : (fun i : Fin 2 => (g.numpy).getD (2 * 2 + ↑i) 0) = g.center := by
      rw [numpy_two g]
      funext i
      fin_cases i <;> rfl
    have harg4 : (fun (i j : Fin 2) => (g.numpy).getD (3 * 2 + 2 * ↑i + ↑j) 0) =
        g.direction := by
      rw [numpy_two g]
      funext i j
      fin_cases i <;> fin_cases j <;> rfl
    have hbuild : Grid.buildFromSeq 2 g.numpy false true =
        some ⟨fun i => max (g.size i) 0, g.spacing, g.center, g.direction, true⟩ := by
      unfold Grid.buildFromSeq
      dsimp only
      rw [if_neg (by simp), harg1, harg2, harg3, harg4]
      exact init_center_eq g.size g.center g.spacing g.direction true (by norm_num) hsp hdet
    refine ⟨⟨fun i => max (g.size i) 0, g.spacing, g.center, g.direction, true⟩, ?_, ?_⟩
    · unfold Grid.from_seq
      rw [if_pos (show (g.numpy).length = 10 by rw [numpy_two g]; rfl), hbuild]
      rfl
    · refine gridEq_of_eq _ _ ?_ rfl rfl rfl
      funext i
      exact max_eq_left (hnn i)
  · intro g hnn hsp hdet
    have harg1 : (fun i : Fin 3 => (g.numpy).getD (↑i) 0) = g.size := by
      rw [numpy_three g]
      funext i
      fin_cases i <;> rfl
    have harg2 : (fun i : Fin 3 => (g.numpy).getD (3 + ↑i) 0) = g.spacing := by
      rw [numpy_three g]
      funext i
      fin_cases i <;> rfl
    have harg3 : (fun i : Fin 3 => (g.numpy).getD (2 * 3 + ↑i) 0) = g.center := by
      rw [numpy_three g]
      funext i
      fin_cases i <;> rfl
    have harg4 : (fun (i j : Fin 3) => (g.numpy).getD (3 * 3 + 3 * ↑i + ↑j) 0) =
        g.direction := by
      rw [numpy_three g]
      funext i j
      fin_cases i <;> fin_cases j <;> rfl
    have hbuild : Grid.buildFromSeq 3 g.numpy false true =
        some ⟨fun i => max (g.size i) 0, g.spacing, g.center, g.direction, true⟩ := by
      unfold Grid.buildFromSeq
      dsimp only
      rw [if_neg (by simp), harg1, harg2, harg3, harg4]
      exact init_center_eq g.size g.center g.spacing g.direction true (by norm_num) hsp hdet
    refine ⟨⟨fun i => max (g.size i) 0, g.spacing, g.center, g.direction, true⟩, ?_, ?_⟩
    · unfold Grid.from_seq
      rw [if_neg (show ¬ (g.numpy).length = 10 by rw [numpy_three g]; norm_num),
        if_pos (show (g.numpy).length = 18 by rw [numpy_three g]; rfl), hbuild]
      rfl
    · refine gridEq_of_eq _ _ ?_ rfl rfl rfl
      funext i
      exact max_eq_left (hnn i)
  · intro attrs origin ac h10 h18
    unfold Grid.from_seq
    rw [if_neg h10, if_neg h18]

/-- C7 witness. -/
theorem C7_witness :
    (∀ i : Fin 2, 0 ≤ exGridRot.size i) ∧ (∀ i : Fin 2, 0 < exGridRot.spacing i) ∧
    |(|exGridRot.direction.det|) - 1| ≤ 1 / 10000 ∧
    (∃ h : Grid 2, Grid.from_seq exGridRot.numpy false true = some ⟨2, h⟩ ∧
      gridEq h exGridRot = true) ∧
    (∀ i : Fin 3, 0 ≤ exGrid3.size i) ∧ (∀ i : Fin 3, 0 < exGrid3.spacing i) ∧
    |(|exGrid3.direction.det|) - 1| ≤ 1 / 10000 ∧
    (∃ h : Grid 3, Grid.from_seq exGrid3.numpy false true = some ⟨3, h⟩ ∧
      gridEq h exGrid3 = true) ∧
    ([(1 : ℚ), 2, 3] : List ℚ).length ≠ 10 ∧ ([(1 : ℚ), 2, 3] : List ℚ).length ≠ 18 ∧
    Grid.from_seq [(1 : ℚ), 2, 3] false true = none :=
  ⟨by decide, by decide, by decide,
    C7_from_seq_roundtrip.1 exGridRot (by decide) (by decide) (by decide),
    by decide, by decide, by decide,
    C7_from_seq_roundtrip.2.1 exGrid3 (by decide) (by decide) (by decide),
    by decide, by decide,
    C7_from_seq_roundtrip.2.2 [(1 : ℚ), 2, 3] false true (by decide) (by decide)⟩

/-- The `m` offset of `pyramid`: the geometric sum equals `2^L - 1`. -/
theorem sum_range_two_pow (L : ℕ) :
    ((List.range L).map (fun i => (2 : ℤ) ^ i)).sum = 2 ^ L - 1 := by
  induction L with
  | zero => rfl
  | succ n ih =>
      rw [List.range_succ, List.map_append, List.sum_append]
      simp [ih]
      ring

/-- Closed form of the back-fill recursion. -/
theorem pyBackfill_closed (c : ℤ) (j : ℕ) : pyBackfill c j = 2 ^ j * (c - 1) + 1 := by
  induction j with
  | zero => simp [pyBackfill]
  | succ n ih =>
      rw [pyBackfill, ih, pow_succ]
      ring

/-- `int(0.5 + a)` for a non-negative integer value `a`. -/
theorem intTrunc_half_add (a : ℤ) (h : 0 ≤ a) : intTrunc (1 / 2 + (a : ℚ)) = a := by
  have hq : (0 : ℚ) ≤ (a : ℚ) := by exact_mod_cast h
  unfold intTrunc
  rw [if_neg (by linarith), Int.floor_eq_iff]
  constructor
  · linarith
  · linarith

/-- Python `int` of an exact non-negative integer value. -/
theorem intTrunc_intCast (a : ℤ) (h : 0 ≤ a) : intTrunc ((a : ℤ) : ℚ) = a := by
  unfold intTrunc
  rw [if_neg (by exact_mod_cast not_lt.mpr h), Int.floor_intCast]


/-- Closed form of the forward pass on sizes of the form `2^L k + 1` with
`min_size = 0` (the guard never fires). -/
theorem pyForward_closed (k : ℕ) (L : ℕ) :
    ∀ l, l ≤ L → pyForward ((2 : ℤ) ^ L * k + 1) 0 l = 2 ^ (L - l) * k + 1 := by
  intro l
  induction l with
  | zero =>
      intro _
      simp [pyForward]
  | succ n ih =>
      intro hle
      have hn : n ≤ L := by omega
      rw [pyForward, ih hn]
      have hsplit : L - n = (L - (n + 1)) + 1 := by omega
      have hv : ((2 : ℤ) ^ (L - n) * k + 1 + 1).fdiv 2 = 2 ^ (L - (n + 1)) * k + 1 := by
        rw [hsplit, pow_succ]
        have : (2 : ℤ) ^ (L - (n + 1)) * 2 * k + 1 + 1 = 2 * (2 ^ (L - (n + 1)) * k + 1) := by
          ring
        rw [this, Int.mul_fdiv_cancel_left _ (by norm_num)]
      rw [hv]
      rw [if_neg (by simp only [not_lt]; positivity)]

/-- `mapM` over `Option` of a function that always succeeds. -/
theorem list_mapM_eq_some {β : Type} (f : ℕ → Option β) (v : ℕ → β) :
    ∀ lst : List ℕ, (∀ l ∈ lst, f l = some (v l)) → lst.mapM f = some (lst.map v) := by
  intro lst
  induction lst with
  | nil => intro _; rfl
  | cons a tl ih =>
      intro hall
      rw [List.map_cons, List.mapM_cons, hall a (by simp), ih (fun l hl => hall l (by simp [hl]))]
      rfl

/-- The forward pass of `pyramid` keeps sizes non-negative (with
`min_size = 0`, the guard restores the previous non-negative value). -/
theorem pyForward_nonneg (s0 : ℤ) (h0 : 0 ≤ s0) : ∀ l, 0 ≤ pyForward s0 0 l := by
  intro l
  induction l with
  | zero => exact h0
  | succ p ih =>
      rw [pyForward]
      split
      · exact ih
      · omega

/-- C5 (amended): `pyramid(levels)` succeeds and returns a dictionary with
exactly the keys `0 .. levels` whose entry at level 0 is the original grid,
provided every axis has an integral stored size congruent to 1 modulo
`2^levels` and in addition `align_corners=True` or `levels ≤ 1` (so
`levels=0` preserves every integral-size grid and `levels=1` every odd-size
grid regardless of `align_corners`). Outside this region the back-fill loop
can overwrite the level-0 size (see the counterexample). -/
theorem C5_pyramid_amended (g : Grid D) (L : ℕ)
    (hacL : g.align_corners = true ∨ L ≤ 1)
    (hsz : ∀ i, ∃ nv : ℕ, g.size i = (nv : ℚ) ∧ nv % 2 ^ L = 1 % 2 ^ L) :
    ∃ res, g.pyramid L 0 = some res ∧ res.map Prod.fst = List.range (L + 1) ∧
      res.head? = some (0, g) := by
  choose n hn hmod using hsz
  have hisize : ∀ i, g.isize i = (n i : ℤ) := by
    intro i
    show roundSizeInt (g.size i) = _
    rw [hn i]
    have hc : ((n i : ℕ) : ℚ) = (((n i : ℕ) : ℤ) : ℚ) := by push_cast; ring
    rw [hc, roundSizeInt_intCast]
  set m : ℤ :=
    if g.align_corners then ((List.range L).map (fun i => (2 : ℤ) ^ i)).sum else 0
    with hmdef
  have hback0 : ∀ i, pyBackfill (pyCoarse (g.isize i) m L) L = (n i : ℤ) := by
    intro i
    rcases Nat.eq_zero_or_pos L with hL0 | hLpos
    · -- levels = 0: the coarse size is the original size itself
      subst hL0
      have hm0 : m = 0 := by
        rw [hmdef]
        cases g.align_corners <;> rfl
      show pyCoarse (g.isize i) m 0 = (n i : ℤ)
      rw [hm0, hisize i]
      unfold pyCoarse
      have harg : (1 : ℚ) / 2 + ((((n i : ℕ) : ℤ) : ℚ) + ((0 : ℤ) : ℚ)) / (2 : ℚ) ^ (0 : ℕ) =
          1 / 2 + (((n i : ℕ) : ℤ) : ℚ) := by push_cast; ring
      rw [harg]
      exact intTrunc_half_add _ (by positivity)
    · -- levels ≥ 1: sizes have the form 2^levels * k + 1
      have h2L : 2 ≤ (2 : ℕ) ^ L := by
        calc (2 : ℕ) = 2 ^ 1 := (pow_one 2).symm
        _ ≤ 2 ^ L := Nat.pow_le_pow_right (by norm_num) hLpos
      have h1mod : (1 : ℕ) % 2 ^ L = 1 := Nat.mod_eq_of_lt (by omega)
      have hmi := hmod i
      rw [h1mod] at hmi
      have hdm := Nat.div_add_mod (n i) (2 ^ L)
      rw [hmi] at hdm
      set k : ℕ := n i / 2 ^ L with hkdef
      have hk : n i = 2 ^ L * k + 1 := hdm.symm
      have hcoarse : pyCoarse (g.isize i) m L = (k : ℤ) + 1 := by
        rw [hisize i]
        cases hac : g.align_corners with
        | false =>
            have hL1 : L = 1 := by
              rcases hacL with h | h
              · rw [h] at hac; cases hac
              · omega
            have hm0 : m = 0 := by
              rw [hmdef, if_neg (by simp [hac])]
            subst hL1
            rw [hm0]
            unfold pyCoarse
            have harg : (1 : ℚ) / 2 +
                ((((n i : ℕ) : ℤ) : ℚ) + ((0 : ℤ) : ℚ)) / (2 : ℚ) ^ (1 : ℕ) =
                (((k : ℤ) + 1 : ℤ) : ℚ) := by
              rw [hk]
              push_cast
              ring
            rw [harg]
            exact intTrunc_intCast _ (by positivity)
        | true =>
            have hmv : m = 2 ^ L - 1 := by
              rw [hmdef, if_pos hac, sum_range_two_pow]
            rw [hmv]
            unfold pyCoarse
            have h2Lq : ((2 : ℚ)) ^ L ≠ 0 := by positivity
            have harg : ((((n i : ℕ) : ℤ) : ℚ) + (((2 : ℤ) ^ L - 1 : ℤ) : ℚ)) =
                (2 : ℚ) ^ L * (((k : ℤ) + 1 : ℤ) : ℚ) := by
              rw [hk]
              push_cast
              ring
            rw [harg, mul_div_cancel_left₀ _ h2Lq]
            exact intTrunc_half_add _ (by positivity)
      rw [hcoarse, pyBackfill_closed, hk]
      push_cast
      ring
  set sz : ℕ → Fin D → ℤ := fun level i =>
    if level = 0 then pyBackfill (pyCoarse (g.isize i) m L) L
    else pyForward (pyBackfill (pyCoarse (g.isize i) m L) L) 0 level with hszdef
  have hszval0 : ∀ i, sz 0 i = (n i : ℤ) := by
    intro i
    rw [hszdef]
    simp only [if_pos rfl]
    exact hback0 i
  have hsznn : ∀ level, ∀ i, 0 ≤ sz level i := by
    intro level i
    rw [hszdef]
    by_cases h0 : level = 0
    · subst h0
      simp only [if_pos rfl]
      rw [hback0 i]
      exact Int.natCast_nonneg _
    · simp only [if_neg h0]
      rw [hback0 i]
      exact pyForward_nonneg _ (Int.natCast_nonneg _) level
  set v : ℕ → ℕ × Grid D :=
    fun level => (level, g._resize (fun i => ((sz level i : ℤ) : ℚ)) none) with hvdef
  have hresize : ∀ level,
      g.resize (sz level) = some (g._resize (fun i => ((sz level i : ℤ) : ℚ)) none) := by
    intro level
    unfold Grid.resize
    rw [if_pos (fun i => hsznn level i)]
  have hall : ∀ l ∈ List.range (L + 1),
      (g.resize (sz l)).map (fun h => (l, h)) = some (v l) := by
    intro l _
    rw [hresize l]
    rfl
  refine ⟨(List.range (L + 1)).map v, ?_, ?_, ?_⟩
  · unfold Grid.pyramid
    dsimp only
    exact list_mapM_eq_some _ v _ hall
  · rw [List.map_map]
    have hfv : Prod.fst ∘ v = id := funext fun l => rfl
    rw [hfv, List.map_id]
  · rw [List.range_succ_eq_map, List.map_cons, List.head?_cons]
    have harg : (fun i => ((sz 0 i : ℤ) : ℚ)) = g.size := by
      funext i
      rw [hszval0 i, hn i]
      push_cast
      ring
    have hv0 : v 0 = (0, g) := by
      rw [hvdef]
      dsimp only
      rw [harg]
      unfold Grid._resize
      rw [if_pos rfl]
    rw [hv0]

/-- Witness for C5 at the odd-size `align_corners = False` grid with one
level. -/
theorem C5_witness :
    (exGridOddF.align_corners = true ∨ 1 ≤ 1) ∧
    (∀ i : Fin 2, ∃ nv : ℕ, exGridOddF.size i = (nv : ℚ) ∧ nv % 2 ^ 1 = 1 % 2 ^ 1) ∧
    (∃ res, exGridOddF.pyramid 1 0 = some res ∧ res.map Prod.fst = List.range 2 ∧
      res.head? = some (0, exGridOddF)) :=
  ⟨Or.inr le_rfl, fun i => ⟨3, by revert i; decide, by decide⟩,
    C5_pyramid_amended exGridOddF 1 (Or.inr le_rfl)
      (fun i => ⟨3, by revert i; decide, by decide⟩)⟩

/-- Product of diagonal matrices with pointwise-inverse entries. -/
theorem diag_mul_diag_one (d e : Fin D → ℚ) (h : ∀ i, d i * e i = 1) :
    Matrix.diagonal d * Matrix.diagonal e = 1 := by
  rw [Matrix.diagonal_mul_diagonal]
  have he : (fun i => d i * e i) = (1 : Fin D → ℚ) := funext h
  rw [he]
  exact Matrix.diagonal_one

/-- `affine @ inverse_affine = 1` for orthonormal direction and nonzero
spacing. -/
theorem affine_mul_inverse (g : Grid D) (hsp : ∀ i, 0 < g.spacing i)
    (hd : g.direction.transpose * g.direction = 1) :
    g.affine * g.inverse_affine = 1 := by
  have hDDt : g.direction * g.direction.transpose = 1 := Matrix.mul_eq_one_comm.mp hd
  unfold Grid.affine Grid.inverse_affine
  rw [mul_assoc, ← mul_assoc (Matrix.diagonal g.spacing),
    diag_mul_diag_one _ _ (fun i => by
      have := hsp i
      field_simp),
    one_mul, hDDt]

/-- `inverse_affine @ affine = 1` for orthonormal direction and nonzero
spacing. -/
theorem inverse_mul_affine (g : Grid D) (hsp : ∀ i, 0 < g.spacing i)
    (hd : g.direction.transpose * g.direction = 1) :
    g.inverse_affine * g.affine = 1 := by
  unfold Grid.affine Grid.inverse_affine
  rw [mul_assoc, ← mul_assoc g.direction.transpose, hd, one_mul,
    diag_mul_diag_one _ _ (fun i => by
      have := hsp i
      field_simp)]

/-- Rounded sizes of at least 2, read off on the rational `size_tensor`. -/
theorem size_tensor_ge_two (g : Grid D) (h2 : ∀ i, 2 ≤ roundSizeInt (g.size i)) :
    ∀ i, (2 : ℚ) ≤ g.size_tensor i := by
  intro i
  show (2 : ℚ) ≤ ((roundSizeInt (g.size i) : ℤ) : ℚ)
  exact_mod_cast h2 i

/-- Normal form of the `vectors=True` transform: every pair factors through
`Axes.GRID`. -/
theorem transform_vec_eq (g : Grid D) (hsp : ∀ i, 0 < g.spacing i)
    (hd : g.direction.transpose * g.direction = 1) (h2 : ∀ i, 2 ≤ roundSizeInt (g.size i))
    (A B : Axes) :
    (g.transform A B true).linear = fromGridV g B * toGridV g A := by
  have hn2 := size_tensor_ge_two g h2
  have hn0 : ∀ i, g.size_tensor i ≠ 0 := fun i => by
    have := hn2 i
    intro hc
    rw [hc] at this
    norm_num at this
  have hn1 : ∀ i, g.size_tensor i - 1 ≠ 0 := fun i => by
    have := hn2 i
    intro hc
    have h1 : g.size_tensor i = 1 := by linarith
    rw [h1] at this
    norm_num at this
  cases A <;> cases B
  · -- GRID GRID
    simp [Grid.transform, fromGridV, toGridV, idTransform]
  · -- GRID CUBE
    simp [Grid.transform, fromGridV, toGridV]
  · -- GRID CUBE_CORNERS
    simp [Grid.transform, fromGridV, toGridV]
  · -- GRID WORLD
    simp [Grid.transform, fromGridV, toGridV]
  · -- CUBE GRID
    simp [Grid.transform, fromGridV, toGridV]
  · -- CUBE CUBE
    simp only [Grid.transform, fromGridV, toGridV, idTransform, Grid.gridToCube,
      Grid.cubeToGrid, if_true]
    rw [diag_mul_diag_one _ _ (fun i => by
      have h := hn0 i
      field_simp)]
  · -- CUBE CUBE_CORNERS
    simp only [Grid.transform, fromGridV, toGridV, Grid.gridToCubeCorners,
      Grid.cubeToGrid, if_true]
    rw [Matrix.diagonal_mul_diagonal]
    refine congrArg Matrix.diagonal (funext fun i => ?_)
    have ha := hn0 i
    have hb := hn1 i
    field_simp
    ring
  · -- CUBE WORLD
    rfl
  · -- CUBE_CORNERS GRID
    simp [Grid.transform, fromGridV, toGridV]
  · -- CUBE_CORNERS CUBE
    simp only [Grid.transform, fromGridV, toGridV, Grid.gridToCube,
      Grid.cornersToGrid, if_true]
    rw [Matrix.diagonal_mul_diagonal]
    refine congrArg Matrix.diagonal (funext fun i => ?_)
    have ha := hn0 i
    have hb := hn1 i
    field_simp
    ring
  · -- CUBE_CORNERS CUBE_CORNERS
    simp only [Grid.transform, fromGridV, toGridV, idTransform, Grid.gridToCubeCorners,
      Grid.cornersToGrid, if_true]
    rw [diag_mul_diag_one _ _ (fun i => by
      have h := hn1 i
      field_simp)]
  · -- CUBE_CORNERS WORLD
    rfl
  · -- WORLD GRID
    simp [Grid.transform, fromGridV, toGridV]
  · -- WORLD CUBE
    rfl
  · -- WORLD CUBE_CORNERS
    rfl
  · -- WORLD WORLD
    simp only [Grid.transform, fromGridV, toGridV, idTransform, Grid.gridToWorld,
      Grid.worldToGrid, if_true]
    rw [affine_mul_inverse g hsp hd]

/-- The two linear legs through a space cancel. -/
theorem toV_mul_fromV (g : Grid D) (hsp : ∀ i, 0 < g.spacing i)
    (hd : g.direction.transpose * g.direction = 1) (h2 : ∀ i, 2 ≤ roundSizeInt (g.size i))
    (B : Axes) : toGridV g B * fromGridV g B = 1 := by
  have hn2 := size_tensor_ge_two g h2
  have hn0 : ∀ i, g.size_tensor i ≠ 0 := fun i => by
    have := hn2 i
    intro hc
    rw [hc] at this
    norm_num at this
  have hn1 : ∀ i, g.size_tensor i - 1 ≠ 0 := fun i => by
    have := hn2 i
    intro hc
    have h1 : g.size_tensor i = 1 := by linarith
    rw [h1] at this
    norm_num at this
  cases B
  · simp [fromGridV, toGridV]
  · simp only [fromGridV, toGridV, Grid.gridToCube, Grid.cubeToGrid, if_true]
    rw [diag_mul_diag_one _ _ (fun i => by
      have h := hn0 i
      field_simp)]
  · simp only [fromGridV, toGridV, Grid.gridToCubeCorners, Grid.cornersToGrid, if_true]
    rw [diag_mul_diag_one _ _ (fun i => by
      have h := hn1 i
      field_simp)]
  · simp only [fromGridV, toGridV, Grid.gridToWorld, Grid.worldToGrid, if_true]
    exact inverse_mul_affine g hsp hd

/-- Left identity for homogeneous composition. -/
theorem hmm_idL (X : Homo D) (t : Fin D → ℚ) (ht : X.offset = some t) :
    hmm (idTransform D false) X = X := by
  rcases X with ⟨l, o⟩
  cases ht
  simp [hmm, idTransform, Matrix.one_mulVec]

/-- Right identity for homogeneous composition. -/
theorem hmm_idR (X : Homo D) (t : Fin D → ℚ) (ht : X.offset = some t) :
    hmm X (idTransform D false) = X := by
  rcases X with ⟨l, o⟩
  cases ht
  simp [hmm, idTransform, Matrix.mulVec_zero]

/-- Associativity of homogeneous composition. -/
theorem hmm_assoc (X Y Z : Homo D) : hmm (hmm X Y) Z = hmm X (hmm Y Z) := by
  rcases X with ⟨xl, xo⟩
  rcases Y with ⟨yl, yo⟩
  rcases Z with ⟨zl, zo⟩
  rcases xo with _ | x <;> rcases yo with _ | y <;> rcases zo with _ | z <;>
    simp [hmm, mul_assoc, Matrix.mulVec_add, ← Matrix.mulVec_mulVec, add_assoc]

/-- Homogeneous composition of fully homogeneous operands. -/
theorem hmm_some (L1 L2 : Matrix (Fin D) (Fin D) ℚ) (o1 o2 : Fin D → ℚ) :
    hmm ⟨L1, some o1⟩ ⟨L2, some o2⟩ = ⟨L1 * L2, some (L1.mulVec o2 + o1)⟩ := rfl

/-- The identity point transform, explicitly. -/
theorem idTransform_pt : idTransform D false = ⟨1, some 0⟩ := rfl

/-- The `GRID to CUBE` point transform, explicitly. -/
theorem gridToCube_pt (g : Grid D) : g.gridToCube false =
    ⟨Matrix.diagonal (fun i => 2 / g.size_tensor i),
      some (fun i => 1 / g.size_tensor i - 1)⟩ := rfl

/-- The `CUBE to GRID` point transform, explicitly. -/
theorem cubeToGrid_pt (g : Grid D) : g.cubeToGrid false =
    ⟨Matrix.diagonal (fun i => (1 / 2 : ℚ) * g.size_tensor i),
      some (fun i => (1 / 2 : ℚ) * g.size_tensor i - 1 / 2)⟩ := rfl

/-- The `GRID to CUBE_CORNERS` point transform, explicitly. -/
theorem gridToCubeCorners_pt (g : Grid D) : g.gridToCubeCorners false =
    ⟨Matrix.diagonal (fun i => 2 / (g.size_tensor i - 1)),
      some (fun _ => -1)⟩ := rfl

/-- The `CUBE_CORNERS to GRID` point transform, explicitly. -/
theorem cornersToGrid_pt (g : Grid D) : g.cornersToGrid false =
    ⟨Matrix.diagonal (fun i => (1 / 2 : ℚ) * (g.size_tensor i - 1)),
      some (fun i => (1 / 2 : ℚ) * (g.size_tensor i - 1))⟩ := rfl

/-- The `GRID to WORLD` point transform, explicitly. -/
theorem gridToWorld_pt (g : Grid D) : g.gridToWorld false =
    ⟨g.affine, some g.origin⟩ := rfl

/-- The `WORLD to GRID` point transform, explicitly. -/
theorem worldToGrid_pt (g : Grid D) : g.worldToGrid false =
    ⟨g.inverse_affine, some (g.inverse_affine.mulVec (-g.origin))⟩ := rfl

/-- Going from a space to `GRID` and back is the identity point transform. -/
theorem fromPt_hmm_toPt (g : Grid D) (hsp : ∀ i, 0 < g.spacing i)
    (hd : g.direction.transpose * g.direction = 1) (h2 : ∀ i, 2 ≤ roundSizeInt (g.size i))
    (A : Axes) : hmm (fromGridPt g A) (toGridPt g A) = idTransform D false := by
  have hn2 := size_tensor_ge_two g h2
  have hn0 : ∀ i, g.size_tensor i ≠ 0 := fun i => by
    have := hn2 i
    intro hc
    rw [hc] at this
    norm_num at this
  have hn1 : ∀ i, g.size_tensor i - 1 ≠ 0 := fun i => by
    have := hn2 i
    intro hc
    have h1 : g.size_tensor i = 1 := by linarith
    rw [h1] at this
    norm_num at this
  cases A
  · exact hmm_idR _ 0 rfl
  · show hmm (g.gridToCube false) (g.cubeToGrid false) = idTransform D false
    rw [gridToCube_pt, cubeToGrid_pt, hmm_some, idTransform_pt]
    congr 1
    · exact diag_mul_diag_one _ _ (fun i => by
        have h := hn0 i
        field_simp)
    · refine congrArg some (funext fun i => ?_)
      simp only [Pi.add_apply, Pi.zero_apply, Matrix.mulVec_diagonal]
      have h := hn0 i
      field_simp
      ring
  · show hmm (g.gridToCubeCorners false) (g.cornersToGrid false) = idTransform D false
    rw [gridToCubeCorners_pt, cornersToGrid_pt, hmm_some, idTransform_pt]
    congr 1
    · exact diag_mul_diag_one _ _ (fun i => by
        have h := hn1 i
        field_simp)
    · refine congrArg some (funext fun i => ?_)
      simp only [Pi.add_apply, Pi.zero_apply, Matrix.mulVec_diagonal]
      have h := hn1 i
      field_simp
  · show hmm (g.gridToWorld false) (g.worldToGrid false) = idTransform D false
    rw [gridToWorld_pt, worldToGrid_pt, hmm_some, idTransform_pt]
    congr 1
    · exact affine_mul_inverse g hsp hd
    · refine congrArg some ?_
      rw [Matrix.mulVec_mulVec, affine_mul_inverse g hsp hd, Matrix.one_mulVec,
        neg_add_cancel]

/-- Going from `GRID` to a space and back is the identity point transform. -/
theorem toPt_hmm_fromPt (g : Grid D) (hsp : ∀ i, 0 < g.spacing i)
    (hd : g.direction.transpose * g.direction = 1) (h2 : ∀ i, 2 ≤ roundSizeInt (g.size i))
    (B : Axes) : hmm (toGridPt g B) (fromGridPt g B) = idTransform D false := by
  have hn2 := size_tensor_ge_two g h2
  have hn0 : ∀ i, g.size_tensor i ≠ 0 := fun i => by
    have := hn2 i
    intro hc
    rw [hc] at this
    norm_num at this
  have hn1 : ∀ i, g.size_tensor i - 1 ≠ 0 := fun i => by
    have := hn2 i
    intro hc
    have h1 : g.size_tensor i = 1 := by linarith
    rw [h1] at this
    norm_num at this
  cases B
  · exact hmm_idR _ 0 rfl
  · show hmm (g.cubeToGrid false) (g.gridToCube false) = idTransform D false
    rw [gridToCube_pt, cubeToGrid_pt, hmm_some, idTransform_pt]
    congr 1
    · exact diag_mul_diag_one _ _ (fun i => by
        have h := hn0 i
        field_simp)
    · refine congrArg some (funext fun i => ?_)
      simp only [Pi.add_apply, Pi.zero_apply, Matrix.mulVec_diagonal]
      have h := hn0 i
      field_simp
      ring
  · show hmm (g.cornersToGrid false) (g.gridToCubeCorners false) = idTransform D false
    rw [gridToCubeCorners_pt, cornersToGrid_pt, hmm_some, idTransform_pt]
    congr 1
    · exact diag_mul_diag_one _ _ (fun i => by
        have h := hn1 i
        field_simp)
    · refine congrArg some (funext fun i => ?_)
      simp only [Pi.add_apply, Pi.zero_apply, Matrix.mulVec_diagonal]
      ring
  · show hmm (g.worldToGrid false) (g.gridToWorld false) = idTransform D false
    rw [gridToWorld_pt, worldToGrid_pt, hmm_some, idTransform_pt]
    congr 1
    · exact inverse_mul_affine g hsp hd
    · refine congrArg some ?_
      rw [Matrix.mulVec_neg]
      exact add_neg_cancel _

/-- Every single-leg point transform carries a translation column. -/
theorem toGridPt_offset (g : Grid D) (A : Axes) : ∃ t, (toGridPt g A).offset = some t := by
  cases A
  · exact ⟨_, rfl⟩
  · exact ⟨_, rfl⟩
  · exact ⟨_, rfl⟩
  · exact ⟨_, rfl⟩

/-- Normal form of the `vectors=False` transform: every pair other than
`CUBE <-> CUBE_CORNERS` (for which the source drops the translation column)
factors through `Axes.GRID` as a homogeneous composition. -/
theorem transform_pt_eq (g : Grid D) (hsp : ∀ i, 0 < g.spacing i)
    (hd : g.direction.transpose * g.direction = 1) (h2 : ∀ i, 2 ≤ roundSizeInt (g.size i))
    (A B : Axes)
    (hbad : ¬((A = Axes.CUBE ∧ B = Axes.CUBE_CORNERS) ∨
              (A = Axes.CUBE_CORNERS ∧ B = Axes.CUBE))) :
    g.transform A B false = hmm (fromGridPt g B) (toGridPt g A) := by
  cases A <;> cases B
  · exact (hmm_idR _ 0 rfl).symm
  · exact (hmm_idR _ _ rfl).symm
  · exact (hmm_idR _ _ rfl).symm
  · exact (hmm_idR _ _ rfl).symm
  · exact (hmm_idL _ _ rfl).symm
  · exact (fromPt_hmm_toPt g hsp hd h2 Axes.CUBE).symm
  · exact absurd (Or.inl ⟨rfl, rfl⟩) hbad
  · rfl
  · exact (hmm_idL _ _ rfl).symm
  · exact absurd (Or.inr ⟨rfl, rfl⟩) hbad
  · exact (fromPt_hmm_toPt g hsp hd h2 Axes.CUBE_CORNERS).symm
  · rfl
  · exact (hmm_idL _ _ rfl).symm
  · rfl
  · rfl
  · exact (fromPt_hmm_toPt g hsp hd h2 Axes.WORLD).symm

/-- C3 (amended): for every grid with positive spacing, orthonormal direction
and rounded size of at least 2 per axis, the composition
`transform(B,C) @ transform(A,B)` equals `transform(A,C)` exactly: for the
linear vector form for all triples `A, B, C`, and for the homogeneous point
form for all triples in which none of the pairs `(A,B)`, `(B,C)`, `(A,C)` is
`CUBE -> CUBE_CORNERS` or `CUBE_CORNERS -> CUBE` (see the counterexample for
those). -/
theorem C3_composition_amended (g : Grid D) (hsp : ∀ i, 0 < g.spacing i)
    (hd : g.direction.transpose * g.direction = 1) (h2 : ∀ i, 2 ≤ roundSizeInt (g.size i))
    (A B C : Axes) :
    (g.transform B C true).linear * (g.transform A B true).linear =
      (g.transform A C true).linear ∧
    (¬((A = Axes.CUBE ∧ B = Axes.CUBE_CORNERS) ∨
       (A = Axes.CUBE_CORNERS ∧ B = Axes.CUBE)) →
     ¬((B = Axes.CUBE ∧ C = Axes.CUBE_CORNERS) ∨
       (B = Axes.CUBE_CORNERS ∧ C = Axes.CUBE)) →
     ¬((A = Axes.CUBE ∧ C = Axes.CUBE_CORNERS) ∨
       (A = Axes.CUBE_CORNERS ∧ C = Axes.CUBE)) →
      hmm (g.transform B C false) (g.transform A B false) = g.transform A C false) := by
  constructor
  · rw [transform_vec_eq g hsp hd h2 B C, transform_vec_eq g hsp hd h2 A B,
      transform_vec_eq g hsp hd h2 A C, mul_assoc,
      ← mul_assoc (toGridV g B) (fromGridV g B) (toGridV g A),
      toV_mul_fromV g hsp hd h2 B, one_mul]
  · intro hAB hBC hAC
    obtain ⟨t, ht⟩ := toGridPt_offset g A
    rw [transform_pt_eq g hsp hd h2 B C hBC, transform_pt_eq g hsp hd h2 A B hAB,
      transform_pt_eq g hsp hd h2 A C hAC, hmm_assoc,
      ← hmm_assoc (toGridPt g B) (fromGridPt g B) (toGridPt g A),
      toPt_hmm_fromPt g hsp hd h2 B, hmm_idL (toGridPt g A) t ht]

/-- Witness for C3 at a rotated anisotropic grid with
`A, B, C = CUBE, WORLD, GRID`. -/
theorem C3_witness :
    (∀ i : Fin 2, 0 < exGridRot.spacing i) ∧
    exGridRot.direction.transpose * exGridRot.direction = 1 ∧
    (∀ i : Fin 2, 2 ≤ roundSizeInt (exGridRot.size i)) ∧
    ((exGridRot.transform Axes.WORLD Axes.GRID true).linear *
        (exGridRot.transform Axes.CUBE Axes.WORLD true).linear =
      (exGridRot.transform Axes.CUBE Axes.GRID true).linear) ∧
    hmm (exGridRot.transform Axes.WORLD Axes.GRID false)
        (exGridRot.transform Axes.CUBE Axes.WORLD false) =
      exGridRot.transform Axes.CUBE Axes.GRID false :=
  ⟨by decide, by decide, by decide,
    (C3_composition_amended exGridRot (by decide) (by decide) (by decide)
      Axes.CUBE Axes.WORLD Axes.GRID).1,
    (C3_composition_amended exGridRot (by decide) (by decide) (by decide)
      Axes.CUBE Axes.WORLD Axes.GRID).2 (by decide) (by decide) (by decide)⟩
